import Mathlib

/-!
Verification of the cclink secure record pipeline.

This file shallowly embeds the Rust sources of the cclink repository:
record serialization and signing (src/record/mod.rs), the key envelope
(src/crypto/mod.rs), PIN validation and record construction on publish
(src/commands/publish.rs), the decrypt dispatch on pickup
(src/commands/pickup.rs), the homeserver transport (src/transport/mod.rs),
and the key store (src/keys/store.rs).

Pure Rust code is translated into executable Lean definitions.  External
cryptographic primitives (Ed25519 signing, age encryption, the Argon2+HKDF
key derivation) are not code of this repository; they enter as explicit
function parameters together with the standard symbolic correctness
hypotheses (round-trip, key separation), and each theorem that uses them is
instantiated by a witness with a concrete executable model.

JSON serialization follows serde_json exactly as the repository relies on
it: struct fields in declaration order, compact output, string escaping of
quote, backslash and control characters, skip_serializing_if on the wire
record.  Machine integers (u64 counters, u8 bytes) are modelled as Nat;
no operation in the modelled code paths can overflow u64.
-/

/-! ### Decimal rendering of unsigned integers (Rust u64 Display) -/

/-- The decimal digit character for a value below ten. -/
def digitChar (d : Nat) : Char :=
  match d with
  | 0 => '0' | 1 => '1' | 2 => '2' | 3 => '3' | 4 => '4'
  | 5 => '5' | 6 => '6' | 7 => '7' | 8 => '8' | 9 => '9'
  | _ => '?'

/-- Fuel-driven most-significant-first decimal digits; fuel bounds recursion depth. -/
def toDecAux : Nat → Nat → List Char
  | 0, _ => []
  | fuel + 1, n => if n < 10 then [digitChar n] else toDecAux fuel (n / 10) ++ [digitChar (n % 10)]

/-- Decimal digit list of a natural number, as Rust u64 Display renders it. -/
def toDec (n : Nat) : List Char := toDecAux (n + 1) n

/-- Decimal string of a natural number (Rust u64 Display / format!). -/
def natToString (n : Nat) : String := String.mk (toDec n)

/-- Numeric value of a decimal digit character. -/
def digitVal (c : Char) : Nat := c.toNat - 48

/-- Value of a most-significant-first decimal digit list. -/
def fromDec (l : List Char) : Nat := l.foldl (fun a c => 10 * a + digitVal c) 0

/-- Decimal digit test, as a Bool. -/
def isDig (c : Char) : Bool := 48 ≤ c.toNat && c.toNat ≤ 57

theorem digitVal_digitChar (d : Nat) (h : d < 10) : digitVal (digitChar d) = d := by
  interval_cases d <;> decide

theorem isDig_digitChar (d : Nat) (h : d < 10) : isDig (digitChar d) = true := by
  interval_cases d <;> decide

theorem toDecAux_succ (fuel n : Nat) :
    toDecAux (fuel + 1) n
      = if n < 10 then [digitChar n] else toDecAux fuel (n / 10) ++ [digitChar (n % 10)] := rfl

theorem foldl_toDecAux (fuel : Nat) :
    ∀ n a, n ≤ fuel →
      List.foldl (fun a c => 10 * a + digitVal c) a (toDecAux (fuel + 1) n)
        = a * 10 ^ (toDecAux (fuel + 1) n).length + n := by
  induction fuel with
  | zero =>
    intro n a hn
    interval_cases n
    simp [toDecAux, digitVal, digitChar]
    ring
  | succ fuel ih =>
    intro n a _
    by_cases h10 : n < 10
    · rw [toDecAux_succ, if_pos h10]
      simp [digitVal_digitChar n h10]
      ring
    · rw [toDecAux_succ, if_neg h10, List.foldl_append]
      have hdiv : n / 10 ≤ fuel := by
        have h1 : n / 10 < n := Nat.div_lt_self (by omega) (by omega)
        omega
      rw [ih (n / 10) a hdiv]
      have hmod : n % 10 < 10 := Nat.mod_lt n (by omega)
      have hn10 : 10 * (n / 10) + n % 10 = n := Nat.div_add_mod n 10
      simp only [List.foldl_cons, List.foldl_nil, digitVal_digitChar _ hmod,
        List.length_append, List.length_singleton, pow_succ]
      calc 10 * (a * 10 ^ (toDecAux (fuel + 1) (n / 10)).length + n / 10) + n % 10
          = a * (10 ^ (toDecAux (fuel + 1) (n / 10)).length * 10)
              + (10 * (n / 10) + n % 10) := by ring
        _ = a * (10 ^ (toDecAux (fuel + 1) (n / 10)).length * 10) + n := by rw [hn10]

theorem fromDec_toDec (n : Nat) : fromDec (toDec n) = n := by
  have h := foldl_toDecAux n n 0 (le_refl n)
  simpa [fromDec, toDec] using h

theorem toDec_injective : Function.Injective toDec := by
  intro a b h
  have ha := fromDec_toDec a
  have hb := fromDec_toDec b
  rw [← ha, ← hb, h]

theorem toDecAux_ne_nil (fuel n : Nat) : toDecAux (fuel + 1) n ≠ [] := by
  by_cases h10 : n < 10
  · simp [toDecAux, if_pos h10]
  · simp [toDecAux, if_neg h10]

theorem toDec_ne_nil (n : Nat) : toDec n ≠ [] := toDecAux_ne_nil n n

theorem toDecAux_digits (fuel : Nat) :
    ∀ n c, c ∈ toDecAux (fuel + 1) n → isDig c = true := by
  induction fuel with
  | zero =>
    intro n c hc
    by_cases h10 : n < 10
    · simp [toDecAux, if_pos h10] at hc
      subst hc
      exact isDig_digitChar n h10
    · simp [toDecAux, if_neg h10] at hc
      subst hc
      exact isDig_digitChar _ (Nat.mod_lt n (by omega))
  | succ fuel ih =>
    intro n c hc
    by_cases h10 : n < 10
    · simp [toDecAux, if_pos h10] at hc
      subst hc
      exact isDig_digitChar n h10
    · simp only [toDecAux, if_neg h10, List.mem_append, List.mem_singleton] at hc
      rcases hc with hc | hc
      · exact ih (n / 10) c hc
      · subst hc
        exact isDig_digitChar _ (Nat.mod_lt n (by omega))

theorem toDec_digits (n : Nat) {c : Char} (hc : c ∈ toDec n) : isDig c = true :=
  toDecAux_digits n n c hc

/-! ### Decimal parsing and a simple executable byte-list codec

`parseNat` reads a leading run of decimal digits.  `encNatList` and
`parseNatList` form a concrete injective codec between byte lists and
strings; witnesses use it as an executable stand-in for base64 (the real
base64 engine is an external crate; only its round-trip and failure
behaviour matter to the claims). -/

/-- Read a leading decimal number; fails when the input does not start with a digit. -/
def parseNat (l : List Char) : Option (Nat × List Char) :=
  let ds := l.takeWhile isDig
  if ds.isEmpty then none else some (fromDec ds, l.dropWhile isDig)

theorem takeWhile_all_eq {p : Char → Bool} :
    ∀ {l : List Char}, (∀ c ∈ l, p c = true) → l.takeWhile p = l := by
  intro l
  induction l with
  | nil => intro _; rfl
  | cons a l ih =>
    intro h
    rw [List.takeWhile_cons, if_pos (h a (by simp))]
    rw [ih (fun c hc => h c (by simp [hc]))]

theorem dropWhile_all_eq_nil {p : Char → Bool} :
    ∀ {l : List Char}, (∀ c ∈ l, p c = true) → l.dropWhile p = [] := by
  intro l
  induction l with
  | nil => intro _; rfl
  | cons a l ih =>
    intro h
    rw [List.dropWhile_cons, if_pos (h a (by simp))]
    exact ih (fun c hc => h c (by simp [hc]))

theorem takeWhile_append_all {p : Char → Bool} {l r : List Char}
    (h : ∀ c ∈ l, p c = true) : (l ++ r).takeWhile p = l ++ r.takeWhile p := by
  rw [List.takeWhile_append]
  rw [takeWhile_all_eq h]
  simp

theorem dropWhile_append_all {p : Char → Bool} {l r : List Char}
    (h : ∀ c ∈ l, p c = true) : (l ++ r).dropWhile p = r.dropWhile p := by
  rw [List.dropWhile_append]
  rw [dropWhile_all_eq_nil h]
  simp

theorem parseNat_toDec (n : Nat) (c : Char) (r : List Char) (hc : isDig c = false) :
    parseNat (toDec n ++ c :: r) = some (n, c :: r) := by
  have hall : ∀ u ∈ toDec n, isDig u = true := fun u hu => toDec_digits n hu
  have htake : (toDec n ++ c :: r).takeWhile isDig = toDec n := by
    rw [takeWhile_append_all hall, List.takeWhile_cons, if_neg (by simp [hc])]
    simp
  have hdrop : (toDec n ++ c :: r).dropWhile isDig = c :: r := by
    rw [dropWhile_append_all hall, List.dropWhile_cons, if_neg (by simp [hc])]
  simp only [parseNat, htake, hdrop]
  rw [if_neg (by simpa [List.isEmpty_iff] using toDec_ne_nil n)]
  rw [fromDec_toDec]

/-- Comma-terminated decimal rendering of a byte list (witness stand-in for base64 encode). -/
def encNatList (l : List Nat) : List Char := l.flatMap (fun n => toDec n ++ [','])

/-- Fuel-driven inverse of `encNatList`. -/
def parseNatListAux : Nat → List Char → Option (List Nat)
  | _, [] => some []
  | 0, _ :: _ => none
  | fuel + 1, l =>
    match parseNat l with
    | none => none
    | some (n, rest) =>
      match rest with
      | ',' :: r2 => (parseNatListAux fuel r2).map (fun t => n :: t)
      | _ => none

/-- Inverse of `encNatList` (witness stand-in for base64 decode; strict, fails on junk). -/
def parseNatList (s : List Char) : Option (List Nat) := parseNatListAux s.length s

theorem parseNatListAux_enc :
    ∀ (l : List Nat) (fuel : Nat), l.length ≤ fuel →
      parseNatListAux fuel (encNatList l) = some l := by
  intro l
  induction l with
  | nil => intro fuel _; cases fuel <;> rfl
  | cons n t ih =>
    intro fuel hf
    have henc : encNatList (n :: t) = toDec n ++ ',' :: encNatList t := by
      simp [encNatList]
    cases fuel with
    | zero => simp at hf
    | succ fuel =>
      have hf' : t.length + 1 ≤ fuel + 1 := by simpa using hf
      have hne : encNatList (n :: t) ≠ [] := by
        rw [henc]
        intro h
        exact toDec_ne_nil n (List.append_eq_nil.mp h).1
      obtain ⟨c, cs, hcons⟩ : ∃ c cs, encNatList (n :: t) = c :: cs := by
        cases h : encNatList (n :: t) with
        | nil => exact absurd h hne
        | cons c cs => exact ⟨c, cs, rfl⟩
      rw [hcons]
      have hparse : parseNat (c :: cs) = some (n, ',' :: encNatList t) := by
        rw [← hcons, henc]
        exact parseNat_toDec n ',' (encNatList t) (by decide)
      show parseNatListAux (fuel + 1) (c :: cs) = some (n :: t)
      simp only [parseNatListAux, hparse]
      rw [ih fuel (by omega)]
      rfl

theorem encNatList_length_ge (l : List Nat) : l.length ≤ (encNatList l).length := by
  induction l with
  | nil => simp [encNatList]
  | cons n t ih =>
    have : encNatList (n :: t) = toDec n ++ ',' :: encNatList t := by simp [encNatList]
    rw [this]
    simp only [List.length_append, List.length_cons]
    omega

theorem parseNatList_enc (l : List Nat) : parseNatList (encNatList l) = some l :=
  parseNatListAux_enc l (encNatList l).length (encNatList_length_ge l)

/-! ### serde_json string escaping (record/mod.rs relies on serde_json) -/

/-- The hexadecimal digit character for a value below sixteen (lower case, as serde_json emits). -/
def hexChar (d : Nat) : Char :=
  match d with
  | 0 => '0' | 1 => '1' | 2 => '2' | 3 => '3' | 4 => '4'
  | 5 => '5' | 6 => '6' | 7 => '7' | 8 => '8' | 9 => '9'
  | 10 => 'a' | 11 => 'b' | 12 => 'c' | 13 => 'd' | 14 => 'e' | 15 => 'f'
  | _ => '?'

/-- Numeric value of a hexadecimal digit character, upper or lower case
(Rust u8::from_str_radix with radix 16 accepts both cases). -/
def hexVal (c : Char) : Option Nat :=
  if 48 ≤ c.toNat ∧ c.toNat ≤ 57 then some (c.toNat - 48)
  else if 97 ≤ c.toNat ∧ c.toNat ≤ 102 then some (c.toNat - 87)
  else if 65 ≤ c.toNat ∧ c.toNat ≤ 70 then some (c.toNat - 55)
  else none

theorem hexVal_hexChar (d : Nat) (h : d < 16) : hexVal (hexChar d) = some d := by
  interval_cases d <;> decide

/-- serde_json escape of one character: quote and backslash are escaped, control
characters below 0x20 use the short forms b t n f r or the u00XX form, and
every other character is emitted verbatim. -/
def escChar (c : Char) : List Char :=
  if c = '"' then ['\\', '"']
  else if c = '\\' then ['\\', '\\']
  else if c = Char.ofNat 8 then ['\\', 'b']
  else if c = Char.ofNat 9 then ['\\', 't']
  else if c = Char.ofNat 10 then ['\\', 'n']
  else if c = Char.ofNat 12 then ['\\', 'f']
  else if c = Char.ofNat 13 then ['\\', 'r']
  else if c.toNat < 32 then ['\\', 'u', '0', '0', hexChar (c.toNat / 16), hexChar (c.toNat % 16)]
  else [c]

/-- serde_json escape of a character list. -/
def escList (l : List Char) : List Char := l.flatMap escChar

/-- A JSON string literal: opening quote, escaped content, closing quote. -/
def jsonString (s : String) : List Char := '"' :: (escList s.data ++ ['"'])

/-- Fuel-driven parser of an escaped JSON string body up to its closing quote,
returning the unescaped content and the remaining input. -/
def parseEscAux : Nat → List Char → Option (List Char × List Char)
  | 0, _ => none
  | _ + 1, [] => none
  | fuel + 1, c :: rest =>
    if c = '"' then some ([], rest)
    else if c = '\\' then
      match rest with
      | [] => none
      | e :: rest2 =>
        if e = '"' then (parseEscAux fuel rest2).map (fun p => ('"' :: p.1, p.2))
        else if e = '\\' then (parseEscAux fuel rest2).map (fun p => ('\\' :: p.1, p.2))
        else if e = 'b' then (parseEscAux fuel rest2).map (fun p => (Char.ofNat 8 :: p.1, p.2))
        else if e = 't' then (parseEscAux fuel rest2).map (fun p => (Char.ofNat 9 :: p.1, p.2))
        else if e = 'n' then (parseEscAux fuel rest2).map (fun p => (Char.ofNat 10 :: p.1, p.2))
        else if e = 'f' then (parseEscAux fuel rest2).map (fun p => (Char.ofNat 12 :: p.1, p.2))
        else if e = 'r' then (parseEscAux fuel rest2).map (fun p => (Char.ofNat 13 :: p.1, p.2))
        else if e = 'u' then
          match rest2 with
          | '0' :: '0' :: h1 :: h2 :: rest3 =>
            match hexVal h1, hexVal h2 with
            | some d1, some d2 =>
              (parseEscAux fuel rest3).map (fun p => (Char.ofNat (16 * d1 + d2) :: p.1, p.2))
            | _, _ => none
          | _ => none
        else none
    else (parseEscAux fuel rest).map (fun p => (c :: p.1, p.2))

/-- Parse an escaped JSON string body up to its closing quote. -/
def parseEsc (l : List Char) : Option (List Char × List Char) := parseEscAux l.length l

theorem escList_cons (c : Char) (x : List Char) : escList (c :: x) = escChar c ++ escList x := by
  simp [escList]

theorem escChar_length_pos (c : Char) : 1 ≤ (escChar c).length := by
  unfold escChar
  split_ifs <;> simp

theorem escList_length_ge (x : List Char) : x.length ≤ (escList x).length := by
  induction x with
  | nil => simp [escList]
  | cons c x ih =>
    rw [escList_cons]
    simp only [List.length_append, List.length_cons]
    have := escChar_length_pos c
    omega

theorem parseEscAux_quote (f : Nat) (r : List Char) :
    parseEscAux (f + 1) ('"' :: r) = some ([], r) := by
  simp [parseEscAux]

theorem parseEscAux_bs_quote (f : Nat) (r : List Char) :
    parseEscAux (f + 1) ('\\' :: '"' :: r)
      = (parseEscAux f r).map (fun p => ('"' :: p.1, p.2)) := by
  simp [parseEscAux]

theorem parseEscAux_bs_bs (f : Nat) (r : List Char) :
    parseEscAux (f + 1) ('\\' :: '\\' :: r)
      = (parseEscAux f r).map (fun p => ('\\' :: p.1, p.2)) := by
  simp [parseEscAux]

theorem parseEscAux_bs_b (f : Nat) (r : List Char) :
    parseEscAux (f + 1) ('\\' :: 'b' :: r)
      = (parseEscAux f r).map (fun p => (Char.ofNat 8 :: p.1, p.2)) := by
  simp [parseEscAux]

theorem parseEscAux_bs_t (f : Nat) (r : List Char) :
    parseEscAux (f + 1) ('\\' :: 't' :: r)
      = (parseEscAux f r).map (fun p => (Char.ofNat 9 :: p.1, p.2)) := by
  simp [parseEscAux]

theorem parseEscAux_bs_n (f : Nat) (r : List Char) :
    parseEscAux (f + 1) ('\\' :: 'n' :: r)
      = (parseEscAux f r).map (fun p => (Char.ofNat 10 :: p.1, p.2)) := by
  simp [parseEscAux]

theorem parseEscAux_bs_f (f : Nat) (r : List Char) :
    parseEscAux (f + 1) ('\\' :: 'f' :: r)
      = (parseEscAux f r).map (fun p => (Char.ofNat 12 :: p.1, p.2)) := by
  simp [parseEscAux]

theorem parseEscAux_bs_r (f : Nat) (r : List Char) :
    parseEscAux (f + 1) ('\\' :: 'r' :: r)
      = (parseEscAux f r).map (fun p => (Char.ofNat 13 :: p.1, p.2)) := by
  simp [parseEscAux]

theorem parseEscAux_bs_u (f : Nat) (h1 h2 : Char) (d1 d2 : Nat) (r : List Char)
    (e1 : hexVal h1 = some d1) (e2 : hexVal h2 = some d2) :
    parseEscAux (f + 1) ('\\' :: 'u' :: '0' :: '0' :: h1 :: h2 :: r)
      = (parseEscAux f r).map (fun p => (Char.ofNat (16 * d1 + d2) :: p.1, p.2)) := by
  simp [parseEscAux, e1, e2]

theorem parseEscAux_other (f : Nat) (c : Char) (r : List Char)
    (h1 : c ≠ '"') (h2 : c ≠ '\\') :
    parseEscAux (f + 1) (c :: r)
      = (parseEscAux f r).map (fun p => (c :: p.1, p.2)) := by
  simp [parseEscAux, h1, h2]

theorem parseEscAux_escList :
    ∀ (x : List Char) (fuel : Nat) (r : List Char), x.length + 1 ≤ fuel →
      parseEscAux fuel (escList x ++ '"' :: r) = some (x, r) := by
  intro x
  induction x with
  | nil =>
    intro fuel r hf
    cases fuel with
    | zero => omega
    | succ f =>
      show parseEscAux (f + 1) ('"' :: r) = some ([], r)
      exact parseEscAux_quote f r
  | cons c x ih =>
    intro fuel r hf
    cases fuel with
    | zero => simp at hf
    | succ f =>
      have hf' : x.length + 1 ≤ f := by
        simp only [List.length_cons] at hf
        omega
      have hIH := ih f r hf'
      rw [escList_cons, List.append_assoc]
      by_cases hq : c = '"'
      · subst hq
        rw [show escChar '"' = ['\\', '"'] from rfl]
        show parseEscAux (f + 1) ('\\' :: '"' :: (escList x ++ '"' :: r)) = _
        rw [parseEscAux_bs_quote, hIH]
        rfl
      · by_cases hb : c = '\\'
        · subst hb
          rw [show escChar '\\' = ['\\', '\\'] from rfl]
          show parseEscAux (f + 1) ('\\' :: '\\' :: (escList x ++ '"' :: r)) = _
          rw [parseEscAux_bs_bs, hIH]
          rfl
        · by_cases h8 : c = Char.ofNat 8
          · subst h8
            rw [show escChar (Char.ofNat 8) = ['\\', 'b'] from rfl]
            show parseEscAux (f + 1) ('\\' :: 'b' :: (escList x ++ '"' :: r)) = _
            rw [parseEscAux_bs_b, hIH]
            rfl
          · by_cases h9 : c = Char.ofNat 9
            · subst h9
              rw [show escChar (Char.ofNat 9) = ['\\', 't'] from rfl]
              show parseEscAux (f + 1) ('\\' :: 't' :: (escList x ++ '"' :: r)) = _
              rw [parseEscAux_bs_t, hIH]
              rfl
            · by_cases h10 : c = Char.ofNat 10
              · subst h10
                rw [show escChar (Char.ofNat 10) = ['\\', 'n'] from rfl]
                show parseEscAux (f + 1) ('\\' :: 'n' :: (escList x ++ '"' :: r)) = _
                rw [parseEscAux_bs_n, hIH]
                rfl
              · by_cases h12 : c = Char.ofNat 12
                · subst h12
                  rw [show escChar (Char.ofNat 12) = ['\\', 'f'] from rfl]
                  show parseEscAux (f + 1) ('\\' :: 'f' :: (escList x ++ '"' :: r)) = _
                  rw [parseEscAux_bs_f, hIH]
                  rfl
                · by_cases h13 : c = Char.ofNat 13
                  · subst h13
                    rw [show escChar (Char.ofNat 13) = ['\\', 'r'] from rfl]
                    show parseEscAux (f + 1) ('\\' :: 'r' :: (escList x ++ '"' :: r)) = _
                    rw [parseEscAux_bs_r, hIH]
                    rfl
                  · by_cases hctl : c.toNat < 32
                    · have hesc : escChar c
                          = ['\\', 'u', '0', '0', hexChar (c.toNat / 16), hexChar (c.toNat % 16)] := by
                        unfold escChar
                        rw [if_neg hq, if_neg hb, if_neg h8, if_neg h9, if_neg h10,
                          if_neg h12, if_neg h13, if_pos hctl]
                      rw [hesc]
                      show parseEscAux (f + 1)
                          ('\\' :: 'u' :: '0' :: '0' :: hexChar (c.toNat / 16)
                            :: hexChar (c.toNat % 16) :: (escList x ++ '"' :: r)) = _
                      rw [parseEscAux_bs_u f _ _ (c.toNat / 16) (c.toNat % 16) _
                        (hexVal_hexChar _ (by omega)) (hexVal_hexChar _ (Nat.mod_lt _ (by omega)))]
                      rw [hIH]
                      have hc : Char.ofNat (16 * (c.toNat / 16) + c.toNat % 16) = c := by
                        rw [Nat.div_add_mod c.toNat 16]
                        exact Char.ofNat_toNat c
                      simp [hc]
                    · have hesc : escChar c = [c] := by
                        unfold escChar
                        rw [if_neg hq, if_neg hb, if_neg h8, if_neg h9, if_neg h10,
                          if_neg h12, if_neg h13, if_neg hctl]
                      rw [hesc]
                      show parseEscAux (f + 1) (c :: (escList x ++ '"' :: r)) = _
                      rw [parseEscAux_other f c _ hq hb, hIH]
                      rfl

theorem parseEsc_escList (x r : List Char) :
    parseEsc (escList x ++ '"' :: r) = some (x, r) := by
  apply parseEscAux_escList
  simp only [List.length_append, List.length_cons]
  have := escList_length_ge x
  omega

/-- Escaped-string segments of canonical JSON cancel: an escaped body followed by
its closing quote determines the original string and the remaining input. -/
theorem escQuote_cancel {x y r s : List Char}
    (h : escList x ++ '"' :: r = escList y ++ '"' :: s) : x = y ∧ r = s := by
  have hx := parseEsc_escList x r
  have hy := parseEsc_escList y s
  rw [h, hy] at hx
  simpa using hx.symm

/-! ### Record data model (src/record/mod.rs) -/

/-- HandoffRecord: the complete signed DHT payload.  Fields in alphabetical
order, exactly as declared in src/record/mod.rs (declaration order is what
serde serializes). -/
structure HandoffRecord where
  blob : String
  burn : Bool
  created_at : Nat
  hostname : String
  pin_salt : Option String
  project : String
  pubkey : String
  recipient : Option String
  signature : String
  ttl : Nat
deriving DecidableEq

/-- HandoffRecordSignable: all fields of HandoffRecord except signature,
in the same alphabetical declaration order (src/record/mod.rs). -/
structure HandoffRecordSignable where
  blob : String
  burn : Bool
  created_at : Nat
  hostname : String
  pin_salt : Option String
  project : String
  pubkey : String
  recipient : Option String
  ttl : Nat
deriving DecidableEq

/-- The From conversion impl in src/record/mod.rs lines 127-143: copy every
field except signature. -/
def HandoffRecordSignable.ofRecord (record : HandoffRecord) : HandoffRecordSignable :=
  { blob := record.blob
    burn := record.burn
    created_at := record.created_at
    hostname := record.hostname
    pin_salt := record.pin_salt
    project := record.project
    pubkey := record.pubkey
    recipient := record.recipient
    ttl := record.ttl }

/-- Payload: the secret session metadata, serialized with the serde-renamed
single-character keys h, p, s (src/record/mod.rs lines 117-125). -/
structure Payload where
  hostname : String
  project : String
  session_id : String
deriving DecidableEq

/-- serde_json output of a Bool. -/
def jsonBool (b : Bool) : List Char := if b then "true".data else "false".data

/-- serde_json output of an Option String: null, or a JSON string literal. -/
def jsonOptString : Option String → List Char
  | none => "null".data
  | some s => jsonString s

/-- Canonical JSON of the signable view as a character list: serde_json
serialization of HandoffRecordSignable, all fields present, declaration
(= alphabetical) order, compact.  This is what canonical_json in
src/record/mod.rs lines 150-152 produces. -/
def canonicalJsonList (s : HandoffRecordSignable) : List Char :=
  "\x7b\"blob\":".data ++ jsonString s.blob
    ++ ",\"burn\":".data ++ jsonBool s.burn
    ++ ",\"created_at\":".data ++ toDec s.created_at
    ++ ",\"hostname\":".data ++ jsonString s.hostname
    ++ ",\"pin_salt\":".data ++ jsonOptString s.pin_salt
    ++ ",\"project\":".data ++ jsonString s.project
    ++ ",\"pubkey\":".data ++ jsonString s.pubkey
    ++ ",\"recipient\":".data ++ jsonOptString s.recipient
    ++ ",\"ttl\":".data ++ toDec s.ttl
    ++ "\x7d".data

/-- canonical_json (src/record/mod.rs lines 150-152): compact serde_json of the
signable view.  The Rust function returns Result but serde_json cannot fail on
this struct, so the embedding is total. -/
def canonical_json (s : HandoffRecordSignable) : String := String.mk (canonicalJsonList s)

/-- Wire JSON of a full HandoffRecord as serde_json emits it with the
skip_serializing_if attributes of src/record/mod.rs lines 26-56: burn is
skipped when false, hostname and project when empty, pin_salt and recipient
when None. -/
def wireJsonList (r : HandoffRecord) : List Char :=
  "\x7b\"blob\":".data ++ jsonString r.blob
    ++ (if r.burn then ",\"burn\":true".data else [])
    ++ ",\"created_at\":".data ++ toDec r.created_at
    ++ (if r.hostname = "" then [] else ",\"hostname\":".data ++ jsonString r.hostname)
    ++ (match r.pin_salt with
        | none => []
        | some s => ",\"pin_salt\":".data ++ jsonString s)
    ++ (if r.project = "" then [] else ",\"project\":".data ++ jsonString r.project)
    ++ ",\"pubkey\":".data ++ jsonString r.pubkey
    ++ (match r.recipient with
        | none => []
        | some s => ",\"recipient\":".data ++ jsonString s)
    ++ ",\"signature\":".data ++ jsonString r.signature
    ++ ",\"ttl\":".data ++ toDec r.ttl
    ++ "\x7d".data

/-! ### Cancellation lemmas for canonical JSON segments -/

theorem allDig_terminated_cancel :
    ∀ (s t : List Char) {c c' : Char} {r r' : List Char},
      (∀ u ∈ s, isDig u = true) → (∀ u ∈ t, isDig u = true) →
      isDig c = false → isDig c' = false →
      s ++ c :: r = t ++ c' :: r' → s = t ∧ c = c' ∧ r = r' := by
  intro s
  induction s with
  | nil =>
    intro t c c' r r' _ ht hc hc' heq
    cases t with
    | nil => simpa using heq
    | cons b t' =>
      simp only [List.nil_append, List.cons_append, List.cons.injEq] at heq
      exfalso
      have hb : isDig b = true := ht b (by simp)
      rw [← heq.1] at hb
      rw [hb] at hc
      exact absurd hc (by simp)
  | cons a s' ih =>
    intro t c c' r r' hs ht hc hc' heq
    cases t with
    | nil =>
      simp only [List.cons_append, List.nil_append, List.cons.injEq] at heq
      exfalso
      have ha : isDig a = true := hs a (by simp)
      rw [heq.1] at ha
      rw [ha] at hc'
      exact absurd hc' (by simp)
    | cons b t' =>
      simp only [List.cons_append, List.cons.injEq] at heq
      obtain ⟨hab, htail⟩ := heq
      have := ih t' (fun u hu => hs u (by simp [hu])) (fun u hu => ht u (by simp [hu]))
        hc hc' htail
      exact ⟨by simp [hab, this.1], this.2.1, this.2.2⟩

theorem toDec_terminated_cancel {a b : Nat} {c : Char} {r r' : List Char}
    (hc : isDig c = false) (h : toDec a ++ c :: r = toDec b ++ c :: r') :
    a = b ∧ r = r' := by
  have := allDig_terminated_cancel (toDec a) (toDec b)
    (fun u hu => toDec_digits a hu) (fun u hu => toDec_digits b hu) hc hc h
  exact ⟨toDec_injective this.1, this.2.2⟩

theorem jsonBool_cancel {a b : Bool} {r r' : List Char}
    (h : jsonBool a ++ r = jsonBool b ++ r') : a = b ∧ r = r' := by
  cases a <;> cases b <;> simp [jsonBool] at h ⊢ <;> simp [h]

theorem jsonString_cancel {x y : String} {r r' : List Char}
    (h : jsonString x ++ r = jsonString y ++ r') : x = y ∧ r = r' := by
  simp only [jsonString, List.cons_append, List.append_assoc, List.cons.injEq,
    List.singleton_append] at h
  have := escQuote_cancel h.2
  exact ⟨String.ext this.1, this.2⟩

theorem jsonOptString_cancel {o o' : Option String} {r r' : List Char}
    (hr : ∃ u, r = ',' :: u) (hr' : ∃ u, r' = ',' :: u)
    (h : jsonOptString o ++ r = jsonOptString o' ++ r') : o = o' ∧ r = r' := by
  cases o with
  | none =>
    cases o' with
    | none =>
      simp only [jsonOptString] at h
      exact ⟨rfl, List.append_cancel_left h⟩
    | some y =>
      exfalso
      obtain ⟨u, hu⟩ := hr
      simp [jsonOptString, jsonString, hu] at h
  | some x =>
    cases o' with
    | none =>
      exfalso
      obtain ⟨u, hu⟩ := hr'
      simp [jsonOptString, jsonString, hu] at h
    | some y =>
      simp only [jsonOptString] at h
      have := jsonString_cancel h
      exact ⟨by rw [this.1], this.2⟩


/-- Canonical JSON is injective on signable views: two signable views with any
differing field serialize to different canonical JSON.  This is the property
that makes signing the canonical JSON tamper-evident. -/
theorem canonicalJsonList_injective : Function.Injective canonicalJsonList := by
  intro a b h
  unfold canonicalJsonList at h
  simp only [List.append_assoc, List.cons_append, List.nil_append] at h
  simp only [List.cons.injEq, eq_self_iff_true, true_and] at h
  obtain ⟨hblob, h⟩ := jsonString_cancel h
  simp only [List.cons.injEq, eq_self_iff_true, true_and] at h
  obtain ⟨hburn, h⟩ := jsonBool_cancel h
  simp only [List.cons.injEq, eq_self_iff_true, true_and] at h
  obtain ⟨hcreated, h⟩ := toDec_terminated_cancel (by decide) h
  simp only [List.cons.injEq, eq_self_iff_true, true_and] at h
  obtain ⟨hhost, h⟩ := jsonString_cancel h
  simp only [List.cons.injEq, eq_self_iff_true, true_and] at h
  obtain ⟨hpin, h⟩ := jsonOptString_cancel ⟨_, rfl⟩ ⟨_, rfl⟩ h
  simp only [List.cons.injEq, eq_self_iff_true, true_and] at h
  obtain ⟨hproj, h⟩ := jsonString_cancel h
  simp only [List.cons.injEq, eq_self_iff_true, true_and] at h
  obtain ⟨hpub, h⟩ := jsonString_cancel h
  simp only [List.cons.injEq, eq_self_iff_true, true_and] at h
  obtain ⟨hrcpt, h⟩ := jsonOptString_cancel ⟨_, rfl⟩ ⟨_, rfl⟩ h
  simp only [List.cons.injEq, eq_self_iff_true, true_and] at h
  obtain ⟨httl, -⟩ := toDec_terminated_cancel (by decide) h
  cases a
  cases b
  simp only at hblob hburn hcreated hhost hpin hproj hpub hrcpt httl
  simp [hblob, hburn, hcreated, hhost, hpin, hproj, hpub, hrcpt, httl]

/-- canonical_json as a String is injective on signable views. -/
theorem canonical_json_injective : Function.Injective canonical_json := by
  intro a b h
  exact canonicalJsonList_injective (congrArg String.data h)

/-! ### Signing and verification (src/record/mod.rs lines 158-196)

Ed25519 and base64 are external crates (ed25519-dalek, pkarr, base64); they
enter as function parameters.  A keypair is its secret seed, `pubOf` derives
the public key, `edSign`/`edVerify` sign and verify raw bytes (64-byte
signatures), and `b64enc`/`b64dec` are the STANDARD engine encode/decode. -/

/-- Result of verify_record.  The source distinguishes three failures:
an anyhow error for malformed base64, an anyhow error for a decoded length
other than 64, and CclinkError::SignatureVerificationFailed for a
cryptographic mismatch (src/record/mod.rs lines 181-193, src/error.rs). -/
inductive VerifyResult where
  | ok
  | errInvalidBase64
  | errBadLength
  | errVerificationFailed
deriving DecidableEq

/-- sign_record (src/record/mod.rs lines 158-166): sign the canonical JSON
bytes and base64-encode the 64-byte signature. -/
def sign_record (edSign : String → Nat → List Nat) (b64enc : List Nat → String)
    (signable : HandoffRecordSignable) (keypair : Nat) : String :=
  b64enc (edSign (canonical_json signable) keypair)

/-- verify_record (src/record/mod.rs lines 175-196): rebuild the signable view,
recompute canonical JSON, base64-decode the signature, require exactly 64
bytes, and verify against the public key. -/
def verify_record (b64dec : String → Option (List Nat))
    (edVerify : Nat → String → List Nat → Bool)
    (record : HandoffRecord) (pubkey : Nat) : VerifyResult :=
  let signable := HandoffRecordSignable.ofRecord record
  let json := canonical_json signable
  match b64dec record.signature with
  | none => .errInvalidBase64
  | some sigBytes =>
    if sigBytes.length = 64 then
      if edVerify pubkey json sigBytes then .ok else .errVerificationFailed
    else .errBadLength

/-! ### Executable witness models of the external crypto -/

/-- Injective code of a byte list into one natural number. -/
def listCode : List Nat → Nat
  | [] => 0
  | a :: l => Nat.pair a (listCode l) + 1

theorem listCode_injective : Function.Injective listCode := by
  intro x
  induction x with
  | nil =>
    intro y h
    cases y with
    | nil => rfl
    | cons b m => simp [listCode] at h
  | cons a l ih =>
    intro y h
    cases y with
    | nil => simp [listCode] at h
    | cons b m =>
      simp only [listCode, Nat.add_right_cancel_iff] at h
      obtain ⟨h1, h2⟩ := Nat.pair_eq_pair.mp h
      rw [h1, ih h2]

theorem charToNat_injective : Function.Injective Char.toNat := by
  intro c d h
  rw [← Char.ofNat_toNat c, h, Char.ofNat_toNat d]

/-- Injective code of a string into one natural number. -/
def stringCode (s : String) : Nat := listCode (s.data.map Char.toNat)

theorem stringCode_injective : Function.Injective stringCode := by
  intro s t h
  have h1 := listCode_injective h
  have h2 := List.map_injective_iff.mpr charToNat_injective h1
  exact String.ext h2

/-- Witness model of Ed25519 signing: a symbolic 64-byte signature that
injectively carries the message and the signing key. -/
def toyEdSign (m : String) (k : Nat) : List Nat := k :: stringCode m :: List.replicate 62 0

/-- Witness model of Ed25519 verification: accept exactly the signature that
`toyEdSign` produces for this message under the key of this public key. -/
def toyEdVerify (p : Nat) (m : String) (s : List Nat) : Bool := s == toyEdSign m p

/-- Witness model of base64 encode (decimal-comma codec). -/
def toyB64enc (bs : List Nat) : String := String.mk (encNatList bs)

/-- Witness model of base64 decode; strict, fails on malformed input. -/
def toyB64dec (s : String) : Option (List Nat) := parseNatList s.data

theorem toyB64_roundtrip : ∀ bs, toyB64dec (toyB64enc bs) = some bs := by
  intro bs
  simp [toyB64dec, toyB64enc, parseNatList_enc]

theorem toyEdSign_length : ∀ m k, (toyEdSign m k).length = 64 := by
  intro m k
  simp [toyEdSign]

theorem toyEdVerify_iff : ∀ k m s, toyEdVerify (id k) m s = true ↔ s = toyEdSign m k := by
  intro k m s
  simp [toyEdVerify]

theorem toyEdSign_injective_in_message : ∀ k m m', toyEdSign m k = toyEdSign m' k → m = m' := by
  intro k m m' h
  simp only [toyEdSign, List.cons.injEq] at h
  exact stringCode_injective h.2.1


theorem verify_record_none {b64dec : String → Option (List Nat)}
    {edVerify : Nat → String → List Nat → Bool} {record : HandoffRecord} {pubkey : Nat}
    (hdec : b64dec record.signature = none) :
    verify_record b64dec edVerify record pubkey = .errInvalidBase64 := by
  unfold verify_record
  rw [hdec]

theorem verify_record_some {b64dec : String → Option (List Nat)}
    {edVerify : Nat → String → List Nat → Bool} {record : HandoffRecord} {pubkey : Nat}
    {bs : List Nat} (hdec : b64dec record.signature = some bs) :
    verify_record b64dec edVerify record pubkey
      = if bs.length = 64 then
          if edVerify pubkey (canonical_json (HandoffRecordSignable.ofRecord record)) bs
          then .ok else .errVerificationFailed
        else .errBadLength := by
  unfold verify_record
  rw [hdec]

/-- C1: For every keypair K and every HandoffRecord R whose signature field was
produced by sign_record over R's signable view with K, verify_record(R, pub K)
succeeds; and mutating any signed field of R after signing (any record with the
same signature whose signable view differs) makes verify_record(R, pub K)
fail.  Ed25519 and base64 are quantified over any implementation satisfying
the standard interface laws. -/
theorem C1_sign_verify_roundtrip_and_tamper
    (b64enc : List Nat → String) (b64dec : String → Option (List Nat))
    (edSign : String → Nat → List Nat) (pubOf : Nat → Nat)
    (edVerify : Nat → String → List Nat → Bool)
    (hb64 : ∀ bs, b64dec (b64enc bs) = some bs)
    (hlen : ∀ m k, (edSign m k).length = 64)
    (hverify : ∀ k m s, edVerify (pubOf k) m s = true ↔ s = edSign m k)
    (hsign_inj : ∀ k m m', edSign m k = edSign m' k → m = m')
    (K : Nat) (R : HandoffRecord)
    (hsigned : R.signature = sign_record edSign b64enc (HandoffRecordSignable.ofRecord R) K) :
    verify_record b64dec edVerify R (pubOf K) = .ok
    ∧ ∀ R' : HandoffRecord, R'.signature = R.signature →
        HandoffRecordSignable.ofRecord R' ≠ HandoffRecordSignable.ofRecord R →
        verify_record b64dec edVerify R' (pubOf K) ≠ .ok := by
  have hdecR : b64dec R.signature
      = some (edSign (canonical_json (HandoffRecordSignable.ofRecord R)) K) := by
    rw [hsigned]
    exact hb64 _
  constructor
  · rw [verify_record_some hdecR, if_pos (hlen _ _), if_pos ((hverify K _ _).mpr rfl)]
  · intro R' hsig hne
    have hdecR' : b64dec R'.signature
        = some (edSign (canonical_json (HandoffRecordSignable.ofRecord R)) K) := by
      rw [hsig]
      exact hdecR
    rw [verify_record_some hdecR', if_pos (hlen _ _)]
    cases hEV : edVerify (pubOf K)
        (canonical_json (HandoffRecordSignable.ofRecord R'))
        (edSign (canonical_json (HandoffRecordSignable.ofRecord R)) K) with
    | false => simp
    | true =>
      exfalso
      have heq := (hverify K _ _).mp hEV
      have hjson := hsign_inj K _ _ heq
      exact hne (canonical_json_injective hjson.symm)

/-- Signable view used by the C1 witness. -/
def c1WitnessSignable : HandoffRecordSignable :=
  { blob := "Ym"
    burn := false
    created_at := 1700000000
    hostname := ""
    pin_salt := none
    project := ""
    pubkey := "pk"
    recipient := none
    ttl := 3600 }

/-- Record used by the C1 witness, signed with the witness Ed25519 model under key 5. -/
def c1WitnessRecord : HandoffRecord :=
  { blob := "Ym"
    burn := false
    created_at := 1700000000
    hostname := ""
    pin_salt := none
    project := ""
    pubkey := "pk"
    recipient := none
    signature := sign_record toyEdSign toyB64enc c1WitnessSignable 5
    ttl := 3600 }

/-- The C1 witness record with its signed burn field mutated after signing. -/
def c1TamperedRecord : HandoffRecord := { c1WitnessRecord with burn := true }

theorem C1_witness :
    verify_record toyB64dec toyEdVerify c1WitnessRecord (id 5) = .ok
    ∧ verify_record toyB64dec toyEdVerify c1TamperedRecord (id 5) ≠ .ok := by
  have h := C1_sign_verify_roundtrip_and_tamper toyB64enc toyB64dec toyEdSign id toyEdVerify
    toyB64_roundtrip toyEdSign_length toyEdVerify_iff toyEdSign_injective_in_message
    5 c1WitnessRecord rfl
  exact ⟨h.1, h.2 c1TamperedRecord rfl (by decide)⟩

/-- C5 (amended): verify_record rejects each of the three defect classes with
an error, but not with one single error kind: malformed base64 and a decoded
length other than 64 produce their own anyhow errors, and only a cryptographic
mismatch produces SignatureVerificationFailed; verify_record returns ok
exactly when all three checks pass, so nothing is partially trusted. -/
theorem C5_verify_error_classification
    (b64dec : String → Option (List Nat)) (edVerify : Nat → String → List Nat → Bool)
    (record : HandoffRecord) (pubkey : Nat) :
    (b64dec record.signature = none →
      verify_record b64dec edVerify record pubkey = .errInvalidBase64)
    ∧ (∀ bs, b64dec record.signature = some bs → bs.length ≠ 64 →
        verify_record b64dec edVerify record pubkey = .errBadLength)
    ∧ (∀ bs, b64dec record.signature = some bs → bs.length = 64 →
        edVerify pubkey (canonical_json (HandoffRecordSignable.ofRecord record)) bs = false →
        verify_record b64dec edVerify record pubkey = .errVerificationFailed)
    ∧ (verify_record b64dec edVerify record pubkey = .ok ↔
        ∃ bs, b64dec record.signature = some bs ∧ bs.length = 64 ∧
          edVerify pubkey (canonical_json (HandoffRecordSignable.ofRecord record)) bs = true) := by
  refine ⟨?_, ?_, ?_, ?_⟩
  · intro hdec
    exact verify_record_none hdec
  · intro bs hdec hlen
    rw [verify_record_some hdec, if_neg hlen]
  · intro bs hdec hlen hv
    rw [verify_record_some hdec, if_pos hlen, hv]
    simp
  · constructor
    · intro hok
      cases hdec : b64dec record.signature with
      | none => rw [verify_record_none hdec] at hok; simp at hok
      | some bs =>
        rw [verify_record_some hdec] at hok
        by_cases hlen : bs.length = 64
        · rw [if_pos hlen] at hok
          cases hv : edVerify pubkey
              (canonical_json (HandoffRecordSignable.ofRecord record)) bs with
          | false => rw [hv] at hok; simp at hok
          | true => exact ⟨bs, rfl, hlen, hv⟩
        · rw [if_neg hlen] at hok; simp at hok
    · intro hex
      obtain ⟨bs, hdec, hlen, hv⟩ := hex
      rw [verify_record_some hdec, if_pos hlen, hv]
      simp

/-- Record whose signature field is not decodable (the witness base64 model
rejects it), for the C5 counterexample. -/
def c5BadBase64Record : HandoffRecord :=
  { blob := ""
    burn := false
    created_at := 0
    hostname := ""
    pin_salt := none
    project := ""
    pubkey := ""
    recipient := none
    signature := "!"
    ttl := 0 }

theorem C5_counterexample :
    verify_record toyB64dec toyEdVerify c5BadBase64Record 0 = .errInvalidBase64
    ∧ VerifyResult.errInvalidBase64 ≠ VerifyResult.errVerificationFailed := by
  constructor
  · rfl
  · decide

/-- Record whose decoded signature has length 1 rather than 64, for the C5 witness. -/
def c5ShortSigRecord : HandoffRecord :=
  { blob := ""
    burn := false
    created_at := 0
    hostname := ""
    pin_salt := none
    project := ""
    pubkey := ""
    recipient := none
    signature := toyB64enc [7]
    ttl := 0 }

theorem C5_witness :
    verify_record toyB64dec toyEdVerify c5ShortSigRecord 0 = .errBadLength :=
  (C5_verify_error_classification toyB64dec toyEdVerify c5ShortSigRecord 0).2.1
    [7] (toyB64_roundtrip [7]) (by decide)

/-! ### C7: canonical JSON shape properties -/

/-- Whitespace characters: space, tab, line feed, carriage return. -/
def isWhitespaceChar (c : Char) : Bool :=
  c = ' ' || c = Char.ofNat 9 || c = Char.ofNat 10 || c = Char.ofNat 13

theorem hexChar_no_ws (d : Nat) : isWhitespaceChar (hexChar d) = false := by
  unfold hexChar
  split <;> decide

theorem isDig_no_ws {c : Char} (hc : isDig c = true) : isWhitespaceChar c = false := by
  simp only [isDig, Bool.and_eq_true, decide_eq_true_eq] at hc
  by_contra hws
  simp only [Bool.not_eq_false, isWhitespaceChar, Bool.or_eq_true, decide_eq_true_eq] at hws
  rcases hws with ((h | h) | h) | h <;> rw [h] at hc <;> revert hc <;> decide

theorem toDec_no_ws (n : Nat) {c : Char} (hc : c ∈ toDec n) : isWhitespaceChar c = false :=
  isDig_no_ws (toDec_digits n hc)

theorem escChar_no_ws {c : Char} (hc : c ≠ ' ') :
    ∀ u ∈ escChar c, isWhitespaceChar u = false := by
  intro u hu
  unfold escChar at hu
  split_ifs at hu with h1 h2 h3 h4 h5 h6 h7 h8
  · fin_cases hu <;> decide
  · fin_cases hu <;> decide
  · fin_cases hu <;> decide
  · fin_cases hu <;> decide
  · fin_cases hu <;> decide
  · fin_cases hu <;> decide
  · fin_cases hu <;> decide
  · fin_cases hu
    · decide
    · decide
    · decide
    · decide
    · exact hexChar_no_ws _
    · exact hexChar_no_ws _
  · simp only [List.mem_singleton] at hu
    subst hu
    simp only [isWhitespaceChar, Bool.or_eq_false_iff, decide_eq_false_iff_not]
    refine ⟨⟨⟨hc, ?_⟩, ?_⟩, ?_⟩ <;> intro he <;> rw [he] at h8 <;> exact h8 (by decide)

theorem escList_no_ws {x : List Char} (hx : ' ' ∉ x) :
    ∀ u ∈ escList x, isWhitespaceChar u = false := by
  intro u hu
  simp only [escList, List.mem_flatMap] at hu
  obtain ⟨c, hcx, hcu⟩ := hu
  have hc : c ≠ ' ' := fun he => hx (he ▸ hcx)
  exact escChar_no_ws hc u hcu

theorem jsonString_no_ws {x : String} (hx : ' ' ∉ x.data) :
    ∀ u ∈ jsonString x, isWhitespaceChar u = false := by
  intro u hu
  simp only [jsonString, List.mem_cons, List.mem_append, List.mem_singleton,
    List.not_mem_nil, or_false] at hu
  rcases hu with h | h | h
  · subst h; decide
  · exact escList_no_ws hx u h
  · subst h; decide

/-- Space-freeness of every string field of a signable view (an Option field is
space-free when absent or when its content is). -/
def optNoSpace : Option String → Bool
  | none => true
  | some x => !x.data.contains ' '

def signableSpaceFree (s : HandoffRecordSignable) : Bool :=
  !s.blob.data.contains ' ' && !s.hostname.data.contains ' ' && optNoSpace s.pin_salt
    && !s.project.data.contains ' ' && !s.pubkey.data.contains ' ' && optNoSpace s.recipient

theorem not_contains_iff {x : List Char} : x.contains ' ' = false ↔ ' ' ∉ x := by
  constructor
  · intro h hm
    rw [← List.elem_iff (α := Char)] at hm
    rw [show (x.contains ' ') = x.elem ' ' from rfl] at h
    rw [h] at hm
    exact absurd hm (by simp)
  · intro h
    by_contra hne
    have ht : x.contains ' ' = true := by
      cases hcc : x.contains ' ' with
      | false => exact absurd hcc hne
      | true => rfl
    rw [show (x.contains ' ') = x.elem ' ' from rfl] at ht
    exact h (List.elem_iff.mp ht)

theorem jsonOptString_no_ws {o : Option String} (ho : optNoSpace o = true) :
    ∀ u ∈ jsonOptString o, isWhitespaceChar u = false := by
  intro u hu
  cases o with
  | none =>
    exact (by decide :
      ∀ v ∈ ("null".data : List Char), isWhitespaceChar v = false) u hu
  | some x =>
    simp only [optNoSpace, Bool.not_eq_true'] at ho
    exact jsonString_no_ws (not_contains_iff.mp ho) u hu

theorem jsonBool_no_ws (b : Bool) : ∀ u ∈ jsonBool b, isWhitespaceChar u = false := by
  cases b <;> decide

/-- C7 (amended): canonical_json is a deterministic pure function of the
signable view; its output decomposes as the nine keys blob, burn, created_at,
hostname, pin_salt, project, pubkey, recipient, ttl in that (alphabetical)
order, each present with its rendered value; and the serializer itself emits
no whitespace, so whenever no string field of the signable view contains a
space character the entire output contains no whitespace.  (A space inside a
field value is the one thing that reaches the output verbatim; all other
whitespace in field values is escaped.) -/
theorem C7_canonical_json_shape :
    (∀ s t : HandoffRecordSignable, s = t → canonical_json s = canonical_json t)
    ∧ (∀ s : HandoffRecordSignable, ∃ v1 v2 v3 v4 v5 v6 v7 v8 v9 : String,
        canonical_json s
          = "\x7b\"blob\":" ++ v1 ++ ",\"burn\":" ++ v2 ++ ",\"created_at\":" ++ v3
            ++ ",\"hostname\":" ++ v4 ++ ",\"pin_salt\":" ++ v5 ++ ",\"project\":" ++ v6
            ++ ",\"pubkey\":" ++ v7 ++ ",\"recipient\":" ++ v8 ++ ",\"ttl\":" ++ v9 ++ "\x7d")
    ∧ (∀ s : HandoffRecordSignable, signableSpaceFree s = true →
        ∀ c ∈ (canonical_json s).data, isWhitespaceChar c = false) := by
  refine ⟨fun s t h => by rw [h], ?_, ?_⟩
  · intro s
    refine ⟨String.mk (jsonString s.blob), String.mk (jsonBool s.burn),
      String.mk (toDec s.created_at), String.mk (jsonString s.hostname),
      String.mk (jsonOptString s.pin_salt), String.mk (jsonString s.project),
      String.mk (jsonString s.pubkey), String.mk (jsonOptString s.recipient),
      String.mk (toDec s.ttl), ?_⟩
    apply String.ext
    show canonicalJsonList s = _
    simp only [String.data_append]
    rfl
  · intro s hfree c hc
    simp only [signableSpaceFree, Bool.and_eq_true, Bool.not_eq_true'] at hfree
    obtain ⟨⟨⟨⟨⟨hblob, hhost⟩, hpin⟩, hproj⟩, hpub⟩, hrcpt⟩ := hfree
    have hc2 : c ∈ canonicalJsonList s := hc
    simp only [canonicalJsonList, List.append_assoc, List.mem_append] at hc2
    rcases hc2 with h | h | h | h | h | h | h | h | h | h | h | h | h | h | h | h | h | h | h
    · exact (by decide :
        ∀ u ∈ ("\x7b\"blob\":".data : List Char), isWhitespaceChar u = false) c h
    · exact jsonString_no_ws (not_contains_iff.mp hblob) c h
    · exact (by decide :
        ∀ u ∈ (",\"burn\":".data : List Char), isWhitespaceChar u = false) c h
    · exact jsonBool_no_ws s.burn c h
    · exact (by decide :
        ∀ u ∈ (",\"created_at\":".data : List Char), isWhitespaceChar u = false) c h
    · exact toDec_no_ws s.created_at h
    · exact (by decide :
        ∀ u ∈ (",\"hostname\":".data : List Char), isWhitespaceChar u = false) c h
    · exact jsonString_no_ws (not_contains_iff.mp hhost) c h
    · exact (by decide :
        ∀ u ∈ (",\"pin_salt\":".data : List Char), isWhitespaceChar u = false) c h
    · exact jsonOptString_no_ws hpin c h
    · exact (by decide :
        ∀ u ∈ (",\"project\":".data : List Char), isWhitespaceChar u = false) c h
    · exact jsonString_no_ws (not_contains_iff.mp hproj) c h
    · exact (by decide :
        ∀ u ∈ (",\"pubkey\":".data : List Char), isWhitespaceChar u = false) c h
    · exact jsonString_no_ws (not_contains_iff.mp hpub) c h
    · exact (by decide :
        ∀ u ∈ (",\"recipient\":".data : List Char), isWhitespaceChar u = false) c h
    · exact jsonOptString_no_ws hrcpt c h
    · exact (by decide :
        ∀ u ∈ (",\"ttl\":".data : List Char), isWhitespaceChar u = false) c h
    · exact toDec_no_ws s.ttl h
    · exact (by decide :
        ∀ u ∈ ("\x7d".data : List Char), isWhitespaceChar u = false) c h

/-- Signable view whose hostname field contains a space, for the C7 counterexample. -/
def c7SpaceSignable : HandoffRecordSignable :=
  { blob := ""
    burn := false
    created_at := 0
    hostname := " "
    pin_salt := none
    project := ""
    pubkey := ""
    recipient := none
    ttl := 0 }

theorem C7_counterexample : ' ' ∈ (canonical_json c7SpaceSignable).data := by decide

/-- Signable view with ordinary space-free field values, for the C7 witness. -/
def c7WitnessSignable : HandoffRecordSignable :=
  { blob := "Ym"
    burn := true
    created_at := 17
    hostname := ""
    pin_salt := some "ab"
    project := ""
    pubkey := "pk"
    recipient := none
    ttl := 60 }

theorem C7_witness :
    canonical_json c7WitnessSignable = canonical_json c7WitnessSignable
    ∧ isWhitespaceChar 'b' = false :=
  ⟨C7_canonical_json_shape.1 c7WitnessSignable c7WitnessSignable rfl,
    C7_canonical_json_shape.2.2 c7WitnessSignable (by decide) 'b' (by decide)⟩

/-! ### C8: PIN validation (src/commands/publish.rs lines 19-67) -/

/-- Result of validate_pin, mirroring Result of unit and String. -/
inductive PinResult where
  | ok
  | err (reason : String)
deriving DecidableEq

/-- The hardcoded case-insensitive blocklist of common words and patterns. -/
def pinCommonBlocklist : List String :=
  ["password", "qwerty", "letmein", "welcome", "monkey", "dragon", "master",
   "iloveyou", "sunshine", "princess", "football", "baseball", "123456789",
   "12345678", "87654321", "qwertyui", "asdfghjk"]

/-- Ascending run test: every adjacent pair of characters differs by exactly +1
in code points, as the windows(2) check in validate_pin computes. -/
def ascendingRun (l : List Char) : Bool :=
  (l.zip l.tail).all (fun w => w.2.toNat = w.1.toNat + 1)

/-- Descending run test: every adjacent pair differs by exactly -1 in code points. -/
def descendingRun (l : List Char) : Bool :=
  (l.zip l.tail).all (fun w => w.1.toNat = w.2.toNat + 1)

/-- validate_pin (src/commands/publish.rs lines 19-67).  Note pin.len() in Rust
is the UTF-8 byte length, while the other rules walk chars.  The unwrap of the
first char is modelled with headD; it is unreachable because the length rule
already rejected every pin with no characters.  Rust str::to_lowercase is the
full Unicode lowercase mapping driven by the Unicode character database
embedded in the standard library; like the other external primitives it enters
the development as the parameter lowerStr, constrained in the theorems by two
laws of that mapping: on strings made of ASCII and U+212A KELVIN SIGN
characters it acts pointwise (A-Z map down 32, KELVIN SIGN maps to k, the rest
of ASCII is fixed), and any other character outside ASCII contributes at least
one character outside ASCII to the lowercased string (KELVIN SIGN is the only
code point outside ASCII whose full lowercase is pure ASCII; in particular
U+0130 lowercases to i followed by U+0307, and both lowercases of the capital
sigma are outside ASCII). -/
def validate_pin (lowerStr : String → String) (pin : String) : PinResult :=
  let len := pin.utf8ByteSize
  if len < 8 then
    .err ("PIN must be at least 8 characters (got " ++ natToString len ++ ")")
  else
    let first := pin.data.headD ' '
    if pin.data.all (fun c => c == first) then
      .err "PIN rejected: all characters are the same"
    else if ascendingRun pin.data || descendingRun pin.data then
      .err "PIN rejected: sequential pattern"
    else if pinCommonBlocklist.contains (lowerStr pin) then
      .err "PIN rejected: common word or pattern"
    else
      .ok

/-- Every blocklist entry is pure ASCII. -/
theorem blocklist_ascii : ∀ s ∈ pinCommonBlocklist, ∀ c ∈ s.data, c.toNat < 128 := by
  decide

/-- Lean's Char.toLower fixes every character outside ASCII. -/
theorem toLower_fix (c : Char) (h : 128 ≤ c.toNat) : c.toLower = c := by
  show (if c.toNat ≥ 65 ∧ c.toNat ≤ 90 then Char.ofNat (c.toNat + 32) else c) = c
  rw [if_neg (by omega)]

/-- Executable witness model of Unicode lowercasing: pointwise ASCII mapping
plus KELVIN SIGN to k, every other character fixed.  It satisfies both
interface laws (the first definitionally). -/
def modelLowercase (s : String) : String :=
  String.mk (s.data.map (fun c => if c.toNat = 8490 then 'k' else c.toLower))

theorem modelLowercase_nonascii (s : String) (c : Char) (hc : c ∈ s.data)
    (h128 : 128 ≤ c.toNat) (hk : c.toNat ≠ 8490) :
    ∃ d ∈ (modelLowercase s).data, 128 ≤ d.toNat := by
  refine ⟨c, ?_, h128⟩
  show c ∈ s.data.map (fun c => if c.toNat = 8490 then 'k' else c.toLower)
  rw [List.mem_map]
  exact ⟨c, hc, by rw [if_neg hk, toLower_fix c h128]⟩

/-- The ten-byte PIN asdfghj followed by U+212A KELVIN SIGN: seven ASCII bytes
plus the three-byte KELVIN SIGN, whose Unicode lowercase is the blocklist word
asdfghjk. -/
def kelvinPin : String := String.mk ("asdfghj".data ++ [Char.ofNat 8490])

/-- C8 (amended): validate_pin rejects every PIN whose UTF-8 byte length is
below 8 (for ASCII PINs that is exactly shorter than 8 characters), every
all-same-character PIN, every strictly monotonic (plus or minus one per
position) sequence, and every PIN whose full Unicode lowercase is a blocklist
entry, and accepts all other PINs; a PIN containing any character outside
ASCII other than KELVIN SIGN can never match the blocklist; the listed example
PINs behave as stated, including the ten-byte PIN asdfghj followed by KELVIN
SIGN, which lowercases to the blocklist word asdfghjk and is rejected. -/
theorem C8_validate_pin_policy (lowerStr : String → String)
    (hlow : ∀ s : String, (∀ c ∈ s.data, c.toNat < 128 ∨ c.toNat = 8490) →
      lowerStr s = String.mk (s.data.map (fun c => if c.toNat = 8490 then 'k' else c.toLower)))
    (hnon : ∀ (s : String) (c : Char), c ∈ s.data → 128 ≤ c.toNat → c.toNat ≠ 8490 →
      ∃ d ∈ (lowerStr s).data, 128 ≤ d.toNat) :
    (∀ pin : String, pin.utf8ByteSize < 8 → validate_pin lowerStr pin ≠ .ok)
    ∧ (∀ pin : String, pin.data.all (fun c => c == pin.data.headD ' ') = true →
        validate_pin lowerStr pin ≠ .ok)
    ∧ (∀ pin : String, ascendingRun pin.data = true → validate_pin lowerStr pin ≠ .ok)
    ∧ (∀ pin : String, descendingRun pin.data = true → validate_pin lowerStr pin ≠ .ok)
    ∧ (∀ pin : String, pinCommonBlocklist.contains (lowerStr pin) = true →
        validate_pin lowerStr pin ≠ .ok)
    ∧ (∀ pin : String, 8 ≤ pin.utf8ByteSize →
        pin.data.all (fun c => c == pin.data.headD ' ') = false →
        ascendingRun pin.data = false → descendingRun pin.data = false →
        pinCommonBlocklist.contains (lowerStr pin) = false →
        validate_pin lowerStr pin = .ok)
    ∧ (∀ (pin : String) (c : Char), c ∈ pin.data → 128 ≤ c.toNat → c.toNat ≠ 8490 →
        pinCommonBlocklist.contains (lowerStr pin) = false)
    ∧ validate_pin lowerStr "aaaaaaaa" ≠ .ok ∧ validate_pin lowerStr "12345678" ≠ .ok
    ∧ validate_pin lowerStr "87654321" ≠ .ok ∧ validate_pin lowerStr "abcdefgh" ≠ .ok
    ∧ validate_pin lowerStr "password" ≠ .ok ∧ validate_pin lowerStr "Password" ≠ .ok
    ∧ validate_pin lowerStr "validpin" = .ok ∧ validate_pin lowerStr "12345679" = .ok
    ∧ validate_pin lowerStr "MyS3cur3P1n!" = .ok
    ∧ validate_pin lowerStr kelvinPin ≠ .ok := by
  have hcong : ∀ p : String, (∀ c ∈ p.data, c.toNat < 128 ∨ c.toNat = 8490) →
      validate_pin lowerStr p = validate_pin modelLowercase p := by
    intro p hp
    have h2 : lowerStr p = modelLowercase p := hlow p hp
    unfold validate_pin
    rw [h2]
  refine ⟨?_, ?_, ?_, ?_, ?_, ?_, ?_,
    by rw [hcong "aaaaaaaa" (by decide)]; decide,
    by rw [hcong "12345678" (by decide)]; decide,
    by rw [hcong "87654321" (by decide)]; decide,
    by rw [hcong "abcdefgh" (by decide)]; decide,
    by rw [hcong "password" (by decide)]; decide,
    by rw [hcong "Password" (by decide)]; decide,
    by rw [hcong "validpin" (by decide)]; decide,
    by rw [hcong "12345679" (by decide)]; decide,
    by rw [hcong "MyS3cur3P1n!" (by decide)]; decide,
    by rw [hcong kelvinPin (by decide)]; decide⟩
  · intro pin hlen
    unfold validate_pin
    rw [if_pos hlen]
    simp
  · intro pin hsame
    unfold validate_pin
    by_cases hlen : pin.utf8ByteSize < 8
    · rw [if_pos hlen]; simp
    · rw [if_neg hlen, if_pos hsame]; simp
  · intro pin hasc
    unfold validate_pin
    by_cases hlen : pin.utf8ByteSize < 8
    · rw [if_pos hlen]; simp
    · rw [if_neg hlen]
      by_cases hsame : pin.data.all (fun c => c == pin.data.headD ' ') = true
      · rw [if_pos hsame]; simp
      · rw [if_neg hsame, if_pos (by simp [hasc])]; simp
  · intro pin hdesc
    unfold validate_pin
    by_cases hlen : pin.utf8ByteSize < 8
    · rw [if_pos hlen]; simp
    · rw [if_neg hlen]
      by_cases hsame : pin.data.all (fun c => c == pin.data.headD ' ') = true
      · rw [if_pos hsame]; simp
      · rw [if_neg hsame, if_pos (by simp [hdesc])]; simp
  · intro pin hblock
    unfold validate_pin
    by_cases hlen : pin.utf8ByteSize < 8
    · rw [if_pos hlen]; simp
    · rw [if_neg hlen]
      by_cases hsame : pin.data.all (fun c => c == pin.data.headD ' ') = true
      · rw [if_pos hsame]; simp
      · rw [if_neg hsame]
        by_cases hseq : (ascendingRun pin.data || descendingRun pin.data) = true
        · rw [if_pos hseq]; simp
        · rw [if_neg hseq, if_pos hblock]; simp
  · intro pin hlen hsame hasc hdesc hblock
    unfold validate_pin
    rw [if_neg (by omega), if_neg (by rw [hsame]; simp),
      if_neg (by rw [hasc, hdesc]; simp), if_neg (by rw [hblock]; simp)]
  · intro pin c hc h128 hk
    cases hcont : pinCommonBlocklist.contains (lowerStr pin) with
    | false => rfl
    | true =>
      exfalso
      have hmem : lowerStr pin ∈ pinCommonBlocklist := List.elem_iff.mp hcont
      obtain ⟨d, hd, hd128⟩ := hnon pin c hc h128 hk
      have hdlt := blocklist_ascii _ hmem d hd
      omega

theorem C8_counterexample :
    validate_pin modelLowercase "abcdefé" = .ok ∧ "abcdefé".data.length = 7 := by
  constructor
  · rfl
  · decide

theorem C8_witness : validate_pin modelLowercase "1234567" ≠ .ok :=
  (C8_validate_pin_policy modelLowercase (fun _ _ => rfl) modelLowercase_nonascii).1
    "1234567" (by decide)

/-! ### C2: publish builds records with secrets only inside the blob
(src/commands/publish.rs lines 137-218) -/

/-- serde_json of Payload with its renamed single-character keys h, p, s
(src/record/mod.rs lines 117-125). -/
def payloadJsonList (p : Payload) : List Char :=
  "\x7b\"h\":".data ++ jsonString p.hostname ++ ",\"p\":".data ++ jsonString p.project
    ++ ",\"s\":".data ++ jsonString p.session_id ++ "\x7d".data

/-- Record construction of run_publish, steps 4 and 5 (src/commands/publish.rs
lines 137-218): serialize the Payload, encrypt it (age and base64 are external
crates, passed as parameters; recipientKey is the X25519 recipient derived for
the self, share, or PIN mode, and pin_salt_value is the base64 salt in PIN
mode), build the signable view with empty outer hostname and project, sign it,
and assemble the HandoffRecord. -/
def run_publish_record (b64enc : List Char → String) (ageEnc : List Char → Nat → List Char)
    (edSign : String → Nat → List Nat) (sigB64enc : List Nat → String) (toZ32 : Nat → String)
    (keypair recipientKey : Nat) (share : Option String) (burn : Bool)
    (pin_salt_value : Option String) (created_at ttl : Nat) (payload : Payload) :
    HandoffRecord :=
  let payload_bytes := payloadJsonList payload
  let blob := b64enc (ageEnc payload_bytes recipientKey)
  let signable : HandoffRecordSignable :=
    { blob := blob
      burn := burn
      created_at := created_at
      hostname := ""
      pin_salt := pin_salt_value
      project := ""
      pubkey := toZ32 keypair
      recipient := share
      ttl := ttl }
  let signature := sign_record edSign sigB64enc signable keypair
  { blob := signable.blob
    burn := burn
    created_at := signable.created_at
    hostname := signable.hostname
    pin_salt := pin_salt_value
    project := signable.project
    pubkey := signable.pubkey
    recipient := share
    signature := signature
    ttl := signable.ttl }

/-- Characters the wire serializer emits on its own: JSON structure, field
names, and the true/false/null literals. -/
def wireSkeletonChars : List Char :=
  "\x7b\x7d\":,blobburncreated_athostnamepin_saltprojectpubkeyrecipientsignaturettltruefalsenull".data

/-- All characters a record's own field values can contribute to the wire JSON. -/
def jsonOptChars : Option String → List Char
  | none => []
  | some s => escList s.data

def recordFieldChars (r : HandoffRecord) : List Char :=
  escList r.blob.data ++ escList r.hostname.data ++ escList r.project.data
    ++ escList r.pubkey.data ++ escList r.signature.data
    ++ jsonOptChars r.pin_salt ++ jsonOptChars r.recipient
    ++ toDec r.created_at ++ toDec r.ttl

theorem jsonString_chars {x : String} {u : Char} (hu : u ∈ jsonString x) :
    u = '"' ∨ u ∈ escList x.data := by
  simp only [jsonString, List.mem_cons, List.mem_append, List.mem_singleton,
    List.not_mem_nil, or_false] at hu
  tauto

/-- Every character of the wire JSON of a record comes from the fixed skeleton
or from one of the record's own field values. -/
theorem wireJson_chars (r : HandoffRecord) :
    ∀ c ∈ wireJsonList r, c ∈ wireSkeletonChars ∨ c ∈ recordFieldChars r := by
  intro c hc
  unfold wireJsonList at hc
  simp only [List.append_assoc, List.mem_append] at hc
  rcases hc with h | h | h | h | h | h | h | h | h | h | h | h | h | h | h | h
  · left; revert h; revert c; decide
  · rcases jsonString_chars h with h | h
    · left; subst h; decide
    · right; simp [recordFieldChars, List.mem_append, h]
  · by_cases hb : r.burn
    · rw [if_pos hb] at h
      left; revert h; revert c; decide
    · rw [if_neg hb] at h
      exact absurd h (by simp)
  · left; revert h; revert c; decide
  · right; simp [recordFieldChars, List.mem_append, h]
  · by_cases hh : r.hostname = ""
    · rw [if_pos hh] at h
      exact absurd h (by simp)
    · rw [if_neg hh] at h
      simp only [List.mem_append] at h
      rcases h with h | h
      · left; revert h; revert c; decide
      · rcases jsonString_chars h with h | h
        · left; subst h; decide
        · right; simp [recordFieldChars, List.mem_append, h]
  · cases hps : r.pin_salt with
    | none => rw [hps] at h; exact absurd h (by simp)
    | some s =>
      rw [hps] at h
      simp only [List.mem_append] at h
      rcases h with h | h
      · left; revert h; revert c; decide
      · rcases jsonString_chars h with h | h
        · left; subst h; decide
        · right
          have : c ∈ jsonOptChars r.pin_salt := by rw [hps]; exact h
          simp [recordFieldChars, List.mem_append, this]
  · by_cases hp : r.project = ""
    · rw [if_pos hp] at h
      exact absurd h (by simp)
    · rw [if_neg hp] at h
      simp only [List.mem_append] at h
      rcases h with h | h
      · left; revert h; revert c; decide
      · rcases jsonString_chars h with h | h
        · left; subst h; decide
        · right; simp [recordFieldChars, List.mem_append, h]
  · left; revert h; revert c; decide
  · rcases jsonString_chars h with h | h
    · left; subst h; decide
    · right; simp [recordFieldChars, List.mem_append, h]
  · cases hrc : r.recipient with
    | none => rw [hrc] at h; exact absurd h (by simp)
    | some s =>
      rw [hrc] at h
      simp only [List.mem_append] at h
      rcases h with h | h
      · left; revert h; revert c; decide
      · rcases jsonString_chars h with h | h
        · left; subst h; decide
        · right
          have : c ∈ jsonOptChars r.recipient := by rw [hrc]; exact h
          simp [recordFieldChars, List.mem_append, this]
  · left; revert h; revert c; decide
  · rcases jsonString_chars h with h | h
    · left; subst h; decide
    · right; simp [recordFieldChars, List.mem_append, h]
  · left; revert h; revert c; decide
  · right; simp [recordFieldChars, List.mem_append, h]
  · left; revert h; revert c; decide

/-- C2 (amended): a record built by run_publish carries empty outer hostname
and project fields; the payload secrets enter the record only through the
encrypted blob; and a secret string can occur as a substring of the serialized
record JSON only if every one of its characters already occurs in the JSON
skeleton or in the record's own field values (blob, pubkey, signature, salts,
numbers) — in particular a secret containing any character outside those never
appears in the serialized JSON. -/
theorem C2_publish_no_plaintext_leak
    (b64enc : List Char → String) (ageEnc : List Char → Nat → List Char)
    (edSign : String → Nat → List Nat) (sigB64enc : List Nat → String) (toZ32 : Nat → String)
    (keypair recipientKey : Nat) (share : Option String) (burn : Bool)
    (pin_salt_value : Option String) (created_at ttl : Nat) (payload : Payload)
    (secret : String)
    (hsecret : ∃ c ∈ secret.data,
      c ∉ wireSkeletonChars
      ∧ c ∉ recordFieldChars (run_publish_record b64enc ageEnc edSign sigB64enc toZ32
          keypair recipientKey share burn pin_salt_value created_at ttl payload)) :
    (run_publish_record b64enc ageEnc edSign sigB64enc toZ32
        keypair recipientKey share burn pin_salt_value created_at ttl payload).hostname = ""
    ∧ (run_publish_record b64enc ageEnc edSign sigB64enc toZ32
        keypair recipientKey share burn pin_salt_value created_at ttl payload).project = ""
    ∧ (run_publish_record b64enc ageEnc edSign sigB64enc toZ32
        keypair recipientKey share burn pin_salt_value created_at ttl payload).blob
        = b64enc (ageEnc (payloadJsonList payload) recipientKey)
    ∧ ¬ (secret.data <:+: wireJsonList (run_publish_record b64enc ageEnc edSign sigB64enc
        toZ32 keypair recipientKey share burn pin_salt_value created_at ttl payload)) := by
  refine ⟨rfl, rfl, rfl, ?_⟩
  intro hinf
  obtain ⟨c, hcmem, hsk, hfld⟩ := hsecret
  have hcj : c ∈ wireJsonList (run_publish_record b64enc ageEnc edSign sigB64enc toZ32
      keypair recipientKey share burn pin_salt_value created_at ttl payload) :=
    hinf.subset hcmem
  rcases wireJson_chars _ c hcj with h | h
  · exact hsk h
  · exact hfld h

/-- Payload with a non-empty session id made of a JSON syntax character, for
the C2 counterexample. -/
def c2LeakPayload : Payload := { hostname := "host1", project := "/proj1", session_id := ":" }

/-- A published record built from that payload with inert witness primitives. -/
def c2LeakRecord : HandoffRecord :=
  run_publish_record (fun _ => "QUJ") (fun _ _ => []) (fun _ _ => []) (fun _ => "SG")
    (fun _ => "pkz") 5 5 none false none 12 60 c2LeakPayload

theorem C2_counterexample :
    c2LeakPayload.session_id ≠ ""
    ∧ (c2LeakPayload.session_id.data <:+: wireJsonList c2LeakRecord) := by
  constructor
  · decide
  · decide

/-- Payload whose secrets contain a character foreign to the record, for the C2 witness. -/
def c2WitnessPayload : Payload :=
  { hostname := "host^name", project := "/proj", session_id := "sess" }

theorem C2_witness :
    (run_publish_record (fun _ => "QUJ") (fun _ _ => []) (fun _ _ => []) (fun _ => "SG")
        (fun _ => "pkz") 5 5 none false none 12 60 c2WitnessPayload).hostname = ""
    ∧ (run_publish_record (fun _ => "QUJ") (fun _ _ => []) (fun _ _ => []) (fun _ => "SG")
        (fun _ => "pkz") 5 5 none false none 12 60 c2WitnessPayload).project = ""
    ∧ (run_publish_record (fun _ => "QUJ") (fun _ _ => []) (fun _ _ => []) (fun _ => "SG")
        (fun _ => "pkz") 5 5 none false none 12 60 c2WitnessPayload).blob
        = (fun _ => "QUJ") ((fun _ _ => ([] : List Char)) (payloadJsonList c2WitnessPayload) 5)
    ∧ ¬ (c2WitnessPayload.hostname.data
        <:+: wireJsonList (run_publish_record (fun _ => "QUJ") (fun _ _ => [])
          (fun _ _ => []) (fun _ => "SG") (fun _ => "pkz") 5 5 none false none 12 60
          c2WitnessPayload)) :=
  C2_publish_no_plaintext_leak (fun _ => "QUJ") (fun _ _ => []) (fun _ _ => [])
    (fun _ => "SG") (fun _ => "pkz") 5 5 none false none 12 60 c2WitnessPayload
    c2WitnessPayload.hostname (by decide)

/-! ### C4: pickup decrypt dispatch (src/commands/pickup.rs lines 147-232) -/

/-- Outcome of the decrypt-or-show-metadata step of run_pickup. -/
inductive PickupOutcome where
  | resume (session_id : String)
  | metadataShown
  | sharedWithOther (recipient : String)
  | errBlobDecode
  | errDecrypt
deriving DecidableEq

/-- The decrypt dispatch of run_pickup (src/commands/pickup.rs lines 147-232):
cross-user pickup attempts decryption with the own identity and shows cleartext
metadata on failure; self-pickup refuses records with a recipient, otherwise
decodes the blob and decrypts with the own identity.  In every successful
branch the decrypted plaintext itself becomes the resumed session id via
String::from_utf8 — the bytes are never parsed as Payload JSON. -/
def run_pickup_decrypt (b64dec : String → Option (List Char))
    (ageDec : List Char → Nat → Option (List Char)) (identity : Nat)
    (is_cross_user : Bool) (record : HandoffRecord) : PickupOutcome :=
  if is_cross_user then
    match b64dec record.blob with
    | none => .errBlobDecode
    | some ciphertext =>
      match ageDec ciphertext identity with
      | some plaintext => .resume (String.mk plaintext)
      | none => .metadataShown
  else
    match record.recipient with
    | some intended => .sharedWithOther intended
    | none =>
      match b64dec record.blob with
      | none => .errBlobDecode
      | some ciphertext =>
        match ageDec ciphertext identity with
        | none => .errDecrypt
        | some plaintext => .resume (String.mk plaintext)

/-- Text-level witness model of base64 decode used by the C4 evidence. -/
def c4B64dec (s : String) : Option (List Char) := some s.data

/-- Text-level witness model of age decryption: ciphertext is the recipient key
rendered in decimal, a semicolon, then the plaintext. -/
def c4AgeDec (ct : List Char) (i : Nat) : Option (List Char) :=
  match parseNat ct with
  | some (r, ';' :: pt) => if r = i then some pt else none
  | _ => none

/-- The Payload the publisher encrypted (as run_publish does since the
encrypted-payload format). -/
def c4Payload : Payload :=
  { hostname := "mac1", project := "/home/u/p", session_id := "sess-1234" }

/-- A self-encrypted record whose blob decrypts (under the witness models,
identity 7) to the Payload JSON that run_publish encrypts. -/
def c4Record : HandoffRecord :=
  { blob := String.mk (toDec 7 ++ ';' :: payloadJsonList c4Payload)
    burn := false
    created_at := 100
    hostname := ""
    pin_salt := none
    project := ""
    pubkey := "pk"
    recipient := none
    signature := "sig"
    ttl := 3600 }

/-- C4: the pickup code resumes with the raw decrypted text as the session id.
When the blob holds the Payload JSON that run_publish encrypts, the resumed
session id is the whole JSON object text, not the session_id field the claim
says a successful Payload parse must produce. -/
theorem C4_pickup_resumes_raw_plaintext :
    run_pickup_decrypt c4B64dec c4AgeDec 7 false c4Record
      = .resume (String.mk (payloadJsonList c4Payload))
    ∧ String.mk (payloadJsonList c4Payload) ≠ c4Payload.session_id := by
  constructor
  · rfl
  · decide

/-! ### C6: homeserver publish (src/transport/mod.rs lines 268-320 and 373-403) -/

/-- The record store of the Pubky homeserver as the HTTP client observes it:
a map from paths to stored bodies.  An HTTP PUT (src/transport/mod.rs
put_record / put_latest) overwrites the body at its path unconditionally. -/
structure ServerStore where
  store : String → Option (List Char)

/-- Overwrite semantics of a successful HTTP PUT. -/
def server_put (st : ServerStore) (path : String) (bytes : List Char) : ServerStore :=
  ⟨fun p => if p = path then some bytes else st.store p⟩

/-- put_record (src/transport/mod.rs lines 268-291): PUT the serialized record
at /pub/cclink/(token). -/
def HomeserverClient.put_record (st : ServerStore) (token : String)
    (record_bytes : List Char) : ServerStore :=
  server_put st ("/pub/cclink/" ++ token) record_bytes

/-- put_latest (src/transport/mod.rs lines 297-320): PUT the pointer at
/pub/cclink/latest. -/
def HomeserverClient.put_latest (st : ServerStore) (latest_bytes : List Char) : ServerStore :=
  server_put st "/pub/cclink/latest" latest_bytes

/-- serde_json of LatestPointer (src/record/mod.rs lines 96-106), fields in
declaration order created_at, hostname, project, token. -/
def latestPointerJsonList (created_at : Nat) (hostname project token : String) : List Char :=
  "\x7b\"created_at\":".data ++ toDec created_at
    ++ ",\"hostname\":".data ++ jsonString hostname
    ++ ",\"project\":".data ++ jsonString project
    ++ ",\"token\":".data ++ jsonString token
    ++ "\x7d".data

/-- publish (src/transport/mod.rs lines 373-403): token is created_at rendered
in decimal; serialize the record, ensure a session (which touches no stored
records), PUT the record, then build and PUT the latest pointer.  No stored
state is read or compared first. -/
def HomeserverClient.publish (st : ServerStore) (record : HandoffRecord) :
    String × ServerStore :=
  let token := natToString record.created_at
  let record_bytes := wireJsonList record
  let st1 := HomeserverClient.put_record st token record_bytes
  let st2 := HomeserverClient.put_latest st1
    (latestPointerJsonList record.created_at record.hostname record.project token)
  (token, st2)

theorem natToString_ne_latest (n : Nat) :
    ("/pub/cclink/" ++ natToString n) ≠ "/pub/cclink/latest" := by
  intro h
  have hd := congrArg String.data h
  simp only [String.data_append] at hd
  have h2 : (['/', 'p', 'u', 'b', '/', 'c', 'c', 'l', 'i', 'n', 'k', '/', 'l', 'a', 't',
      'e', 's', 't'] : List Char)
      = ['/', 'p', 'u', 'b', '/', 'c', 'c', 'l', 'i', 'n', 'k', '/']
        ++ ['l', 'a', 't', 'e', 's', 't'] := by decide
  rw [h2] at hd
  have h3 := List.append_cancel_left hd
  have h4 : 'l' ∈ (natToString n).data := by rw [h3]; decide
  have h5 : isDig 'l' = true := toDec_digits n h4
  exact absurd h5 (by decide)

theorem publish_store (st : ServerStore) (record : HandoffRecord) (p : String) :
    (HomeserverClient.publish st record).2.store p
      = if p = "/pub/cclink/latest"
        then some (latestPointerJsonList record.created_at record.hostname record.project
          (natToString record.created_at))
        else if p = "/pub/cclink/" ++ natToString record.created_at
        then some (wireJsonList record)
        else st.store p := rfl

/-- C6 (amended): HomeserverClient::publish is an unconditional last-writer-wins
PUT: for every prior server state it succeeds, returns the token
created_at-in-decimal, stores the serialized record at /pub/cclink/(token),
overwrites /pub/cclink/latest with the new pointer, and leaves every other
path untouched — no compare-and-swap against previously observed state exists
on this path. -/
theorem C6_publish_unconditional (st : ServerStore) (record : HandoffRecord) :
    (HomeserverClient.publish st record).1 = natToString record.created_at
    ∧ (HomeserverClient.publish st record).2.store
        ("/pub/cclink/" ++ natToString record.created_at) = some (wireJsonList record)
    ∧ (HomeserverClient.publish st record).2.store "/pub/cclink/latest"
        = some (latestPointerJsonList record.created_at record.hostname record.project
            (natToString record.created_at))
    ∧ ∀ p : String, p ≠ "/pub/cclink/" ++ natToString record.created_at →
        p ≠ "/pub/cclink/latest" →
        (HomeserverClient.publish st record).2.store p = st.store p := by
  refine ⟨rfl, ?_, ?_, ?_⟩
  · rw [publish_store, if_neg (natToString_ne_latest record.created_at), if_pos rfl]
  · rw [publish_store, if_pos rfl]
  · intro p hp1 hp2
    rw [publish_store, if_neg hp2, if_neg hp1]

/-- A prior server state whose latest pointer has advanced to timestamp 200. -/
def c6PriorState : ServerStore :=
  server_put (server_put ⟨fun _ => none⟩ "/pub/cclink/200" "OLD".data)
    "/pub/cclink/latest" (latestPointerJsonList 200 "" "" "200")

/-- A record whose created_at timestamp 100 is older than the published 200. -/
def c6StaleRecord : HandoffRecord :=
  { blob := "B"
    burn := false
    created_at := 100
    hostname := ""
    pin_salt := none
    project := ""
    pubkey := "pk"
    recipient := none
    signature := "sg"
    ttl := 60 }

theorem C6_counterexample :
    100 < 200
    ∧ c6PriorState.store "/pub/cclink/latest" = some (latestPointerJsonList 200 "" "" "200")
    ∧ (HomeserverClient.publish c6PriorState c6StaleRecord).1 = "100"
    ∧ (HomeserverClient.publish c6PriorState c6StaleRecord).2.store "/pub/cclink/100"
        = some (wireJsonList c6StaleRecord) := by
  refine ⟨by decide, rfl, rfl, ?_⟩
  rw [publish_store, if_neg (by decide), if_pos (by decide)]

theorem C6_witness :
    (HomeserverClient.publish ⟨fun _ => none⟩ c6StaleRecord).2.store "/x"
      = (ServerStore.mk (fun _ => none)).store "/x" :=
  (C6_publish_unconditional ⟨fun _ => none⟩ c6StaleRecord).2.2.2 "/x"
    (by decide) (by decide)

/-! ### C3: the CCLINKEK key envelope (src/crypto/mod.rs lines 266-364)

The Argon2id+HKDF key derivation (key_derive_key) and the age cipher are
external crates and enter as parameters: kdf takes the passphrase, the salt,
and the three Argon2 parameters; ageEnc encrypts a byte string to a recipient
key; ageDec decrypts with an identity key; toPub maps an identity to its
recipient.  The byte-level envelope framing is the repository's own code and
is embedded concretely. -/

/-- Result of decrypt_key_envelope: the source bails with distinct messages
for a short envelope, wrong magic, unsupported version, failed decryption
(wrong passphrase or corruption), and a plaintext that is not 32 bytes. -/
inductive EnvelopeResult where
  | ok (seed : List Nat)
  | errTooShort
  | errBadMagic
  | errBadVersion
  | errDecryptFailed
  | errBadLength
deriving DecidableEq

/-- The magic bytes CCLINKEK. -/
def ENVELOPE_MAGIC : List Nat := [67, 67, 76, 73, 78, 75, 69, 75]

/-- Big-endian u32 byte rendering (u32::to_be_bytes). -/
def u32be (n : Nat) : List Nat :=
  [n / 16777216 % 256, n / 65536 % 256, n / 256 % 256, n % 256]

/-- Big-endian u32 value of four bytes (u32::from_be_bytes). -/
def fromBE4 (l : List Nat) : Nat :=
  match l with
  | [b0, b1, b2, b3] => ((b0 * 256 + b1) * 256 + b2) * 256 + b3
  | _ => 0

/-- encrypt_key_envelope (src/crypto/mod.rs lines 266-295).  The random salt is
passed explicitly; the Argon2 parameters are the constants m=65536 t=3 p=1,
written into the header; the ciphertext is the age encryption of the seed to
the recipient of the derived key-encryption key. -/
def encrypt_key_envelope (kdf : String → List Nat → Nat × Nat × Nat → Nat)
    (toPub : Nat → Nat) (ageEnc : List Nat → Nat → List Nat)
    (salt : List Nat) (seed : List Nat) (passphrase : String) : List Nat :=
  ENVELOPE_MAGIC ++ [1] ++ u32be 65536 ++ u32be 3 ++ u32be 1 ++ salt
    ++ ageEnc seed (toPub (kdf passphrase salt (65536, 3, 1)))

/-- decrypt_key_envelope (src/crypto/mod.rs lines 308-364): check length at
least 53, magic, version; decode the Argon2 parameters and salt from the
header (not from constants); re-derive the key; age-decrypt; require a
32-byte plaintext. -/
def decrypt_key_envelope (kdf : String → List Nat → Nat × Nat × Nat → Nat)
    (ageDec : List Nat → Nat → Option (List Nat))
    (envelope : List Nat) (passphrase : String) : EnvelopeResult :=
  if envelope.length < 53 then .errTooShort
  else if envelope.take 8 ≠ ENVELOPE_MAGIC then .errBadMagic
  else if (envelope.drop 8).take 1 ≠ [1] then .errBadVersion
  else
    let m_cost := fromBE4 ((envelope.drop 9).take 4)
    let t_cost := fromBE4 ((envelope.drop 13).take 4)
    let p_cost := fromBE4 ((envelope.drop 17).take 4)
    let salt := (envelope.drop 21).take 32
    let ciphertext := envelope.drop 53
    match ageDec ciphertext (kdf passphrase salt (m_cost, t_cost, p_cost)) with
    | none => .errDecryptFailed
    | some plaintext => if plaintext.length = 32 then .ok plaintext else .errBadLength

theorem envelope_decompose (kdf : String → List Nat → Nat × Nat × Nat → Nat)
    (toPub : Nat → Nat) (ageEnc : List Nat → Nat → List Nat)
    (salt seed : List Nat) (passphrase : String) :
    encrypt_key_envelope kdf toPub ageEnc salt seed passphrase
      = ([67, 67, 76, 73, 78, 75, 69, 75] ++ [1] ++ [0, 1, 0, 0] ++ [0, 0, 0, 3]
          ++ [0, 0, 0, 1])
        ++ (salt ++ ageEnc seed (toPub (kdf passphrase salt (65536, 3, 1)))) := by
  unfold encrypt_key_envelope ENVELOPE_MAGIC u32be
  norm_num

theorem decrypt_encrypt_key_envelope
    (kdf : String → List Nat → Nat × Nat × Nat → Nat) (toPub : Nat → Nat)
    (ageEnc : List Nat → Nat → List Nat) (ageDec : List Nat → Nat → Option (List Nat))
    (salt seed : List Nat) (p q : String) (hsalt : salt.length = 32) :
    decrypt_key_envelope kdf ageDec (encrypt_key_envelope kdf toPub ageEnc salt seed p) q
      = match ageDec (ageEnc seed (toPub (kdf p salt (65536, 3, 1))))
            (kdf q salt (65536, 3, 1)) with
        | none => .errDecryptFailed
        | some plaintext =>
          if plaintext.length = 32 then .ok plaintext else .errBadLength := by
  have hL : (encrypt_key_envelope kdf toPub ageEnc salt seed p).length
      = 53 + (ageEnc seed (toPub (kdf p salt (65536, 3, 1)))).length := by
    rw [envelope_decompose kdf toPub ageEnc salt seed p]
    simp [List.length_append, hsalt]
    omega
  have hsaltslice : ((encrypt_key_envelope kdf toPub ageEnc salt seed p).drop 21).take 32
      = salt := by
    rw [show (encrypt_key_envelope kdf toPub ageEnc salt seed p).drop 21
        = salt ++ ageEnc seed (toPub (kdf p salt (65536, 3, 1))) from rfl]
    exact List.take_left' hsalt
  have hctslice : (encrypt_key_envelope kdf toPub ageEnc salt seed p).drop 53
      = ageEnc seed (toPub (kdf p salt (65536, 3, 1))) := by
    rw [show (encrypt_key_envelope kdf toPub ageEnc salt seed p).drop 53
        = (salt ++ ageEnc seed (toPub (kdf p salt (65536, 3, 1)))).drop 32 from rfl]
    exact List.drop_left' hsalt
  unfold decrypt_key_envelope
  rw [if_neg (by rw [hL]; omega)]
  rw [if_neg (show ¬ ((encrypt_key_envelope kdf toPub ageEnc salt seed p).take 8
    ≠ ENVELOPE_MAGIC) from by
      rw [show (encrypt_key_envelope kdf toPub ageEnc salt seed p).take 8
        = ENVELOPE_MAGIC from rfl]
      simp)]
  rw [if_neg (show ¬ (((encrypt_key_envelope kdf toPub ageEnc salt seed p).drop 8).take 1
    ≠ [1]) from by
      rw [show ((encrypt_key_envelope kdf toPub ageEnc salt seed p).drop 8).take 1
        = [1] from rfl]
      simp)]
  rw [show fromBE4 (((encrypt_key_envelope kdf toPub ageEnc salt seed p).drop 9).take 4)
    = 65536 from rfl]
  rw [show fromBE4 (((encrypt_key_envelope kdf toPub ageEnc salt seed p).drop 13).take 4)
    = 3 from rfl]
  rw [show fromBE4 (((encrypt_key_envelope kdf toPub ageEnc salt seed p).drop 17).take 4)
    = 1 from rfl]
  rw [hsaltslice, hctslice]

/-- C3: For every 32-byte seed, salt, and passphrase p, decrypting the envelope
produced by encrypt_key_envelope with p returns exactly the seed, and
decrypting it with any different passphrase fails with the
wrong-passphrase-or-corrupted error (never a wrong seed and never a panic).
The Argon2+HKDF derivation and the age cipher are quantified over any
implementation satisfying the standard interface laws. -/
theorem C3_key_envelope_roundtrip
    (kdf : String → List Nat → Nat × Nat × Nat → Nat) (toPub : Nat → Nat)
    (ageEnc : List Nat → Nat → List Nat) (ageDec : List Nat → Nat → Option (List Nat))
    (hage : ∀ pt k i, ageDec (ageEnc pt (toPub k)) i = if i = k then some pt else none)
    (hkdf : ∀ (a b : String) (salt : List Nat) (params : Nat × Nat × Nat),
      a ≠ b → kdf a salt params ≠ kdf b salt params)
    (seed salt : List Nat) (hseed : seed.length = 32) (hsalt : salt.length = 32)
    (p p' : String) (hp : p' ≠ p) :
    decrypt_key_envelope kdf ageDec
        (encrypt_key_envelope kdf toPub ageEnc salt seed p) p = .ok seed
    ∧ decrypt_key_envelope kdf ageDec
        (encrypt_key_envelope kdf toPub ageEnc salt seed p) p' = .errDecryptFailed := by
  constructor
  · rw [decrypt_encrypt_key_envelope kdf toPub ageEnc ageDec salt seed p p hsalt]
    rw [hage seed (kdf p salt (65536, 3, 1)) (kdf p salt (65536, 3, 1)), if_pos rfl]
    show (if seed.length = 32 then EnvelopeResult.ok seed else .errBadLength) = .ok seed
    rw [if_pos hseed]
  · rw [decrypt_encrypt_key_envelope kdf toPub ageEnc ageDec salt seed p p' hsalt]
    rw [hage seed (kdf p salt (65536, 3, 1)) (kdf p' salt (65536, 3, 1)),
      if_neg (hkdf p' p salt (65536, 3, 1) hp)]

/-- Witness model of the Argon2id+HKDF derivation: injective in the passphrase. -/
def toyKdf (pass : String) (_salt : List Nat) (_params : Nat × Nat × Nat) : Nat :=
  stringCode pass

/-- Witness model of age encryption over byte lists: prepend the recipient key. -/
def toyAgeEncBytes (pt : List Nat) (r : Nat) : List Nat := r :: pt

/-- Witness model of age decryption over byte lists: succeed only on the
matching identity. -/
def toyAgeDecBytes (ct : List Nat) (i : Nat) : Option (List Nat) :=
  match ct with
  | [] => none
  | r :: pt => if i = r then some pt else none

theorem C3_witness :
    decrypt_key_envelope toyKdf toyAgeDecBytes
        (encrypt_key_envelope toyKdf id toyAgeEncBytes (List.replicate 32 0)
          (List.replicate 32 42) "correct horse") "correct horse"
      = .ok (List.replicate 32 42)
    ∧ decrypt_key_envelope toyKdf toyAgeDecBytes
        (encrypt_key_envelope toyKdf id toyAgeEncBytes (List.replicate 32 0)
          (List.replicate 32 42) "correct horse") "wrong pass"
      = .errDecryptFailed :=
  C3_key_envelope_roundtrip toyKdf id toyAgeEncBytes toyAgeDecBytes
    (fun _ _ _ => rfl)
    (fun _ _ _ _ hne hkeq => hne (stringCode_injective hkeq))
    (List.replicate 32 42) (List.replicate 32 0) (by simp) (by simp)
    "correct horse" "wrong pass" (by decide)

/-! ### C9: atomic keypair writes (src/keys/store.rs lines 34-61 and 94-132)

The success paths of the two atomic writers are embedded as their sequences of
file-system steps, with a small semantics tracking the mode of the temp file
and the destination.  The creation mode of the freshly written temp file is a
parameter: it is whatever pkarr::Keypair::write_secret_key_file respectively
std::fs::write and the process umask produce, which this code does not
control. -/

inductive KeyWriteStep where
  | writeTmp (mode : Nat)
  | chmodTmp (mode : Nat)
  | renameTmpToDest
  | chmodDest (mode : Nat)
deriving DecidableEq

/-- write_keypair_atomic success path (src/keys/store.rs lines 34-61): pkarr
writes the temp file, then the atomic rename, then set_permissions 0600 on the
destination.  No set_permissions call ever touches the temp file. -/
def write_keypair_atomic (pkarrWriteMode : Nat) : List KeyWriteStep :=
  [.writeTmp pkarrWriteMode, .renameTmpToDest, .chmodDest 384]

/-- write_encrypted_keypair_atomic success path (src/keys/store.rs lines
94-132): fs::write creates the temp file, then set_permissions 0600 on the
temp file before the rename, then the rename, then set_permissions 0600 again
on the destination. -/
def write_encrypted_keypair_atomic (fsWriteMode : Nat) : List KeyWriteStep :=
  [.writeTmp fsWriteMode, .chmodTmp 384, .renameTmpToDest, .chmodDest 384]

/-- Modes of the temp file and the destination; none means the file is absent. -/
structure FileModes where
  tmpMode : Option Nat
  destMode : Option Nat
deriving DecidableEq

def applyStep (st : FileModes) : KeyWriteStep → FileModes
  | .writeTmp m => { st with tmpMode := some m }
  | .chmodTmp m => { st with tmpMode := st.tmpMode.map (fun _ => m) }
  | .renameTmpToDest => { tmpMode := none, destMode := st.tmpMode }
  | .chmodDest m => { st with destMode := st.destMode.map (fun _ => m) }

def runSteps (steps : List KeyWriteStep) : FileModes :=
  steps.foldl applyStep { tmpMode := none, destMode := none }

/-- C9 (amended): write_encrypted_keypair_atomic sets mode 0600 on the temp
file after writing it and before the rename (step 1 is the chmod, step 2 the
rename), so from that point until the rename the temp file holds the envelope
at 0600, and after the rename 0600 is asserted again on the destination;
write_keypair_atomic performs no chmod on the temp file at all and asserts
0600 only on the destination after the rename.  In both writers the freshly
written temp file briefly carries the creation mode of the underlying write,
which this code does not set. -/
theorem C9_key_write_permission_steps (m : Nat) :
    (write_encrypted_keypair_atomic m)[1]? = some (.chmodTmp 384)
    ∧ (write_encrypted_keypair_atomic m)[2]? = some .renameTmpToDest
    ∧ (runSteps ((write_encrypted_keypair_atomic m).take 2)).tmpMode = some 384
    ∧ (runSteps (write_encrypted_keypair_atomic m)).destMode = some 384
    ∧ (runSteps (write_encrypted_keypair_atomic m)).tmpMode = none
    ∧ (∀ k, KeyWriteStep.chmodTmp k ∉ write_keypair_atomic m)
    ∧ (runSteps (write_keypair_atomic m)).destMode = some 384
    ∧ (runSteps (write_keypair_atomic m)).tmpMode = none := by
  refine ⟨rfl, rfl, rfl, rfl, rfl, ?_, rfl, rfl⟩
  intro k
  simp [write_keypair_atomic]

theorem C9_counterexample :
    ((write_keypair_atomic 420).all (fun s => !(s == KeyWriteStep.chmodTmp 384)) = true)
    ∧ (runSteps ((write_keypair_atomic 420).take 1)).tmpMode = some 420
    ∧ (420 : Nat) ≠ 384 := by decide

theorem C9_witness :
    KeyWriteStep.chmodTmp 384 ∉ write_keypair_atomic 420 :=
  (C9_key_write_permission_steps 420).2.2.2.2.2.1 384

/-! ### C10: key-file format detection (src/keys/store.rs lines 147-195) -/

/-- The Unicode White_Space set that Rust char::is_whitespace tests. -/
def isRustWhitespace (c : Char) : Bool :=
  [9, 10, 11, 12, 13, 32, 133, 160, 5760, 8192, 8193, 8194, 8195, 8196, 8197, 8198,
   8199, 8200, 8201, 8202, 8232, 8233, 8239, 8287, 12288].contains c.toNat

/-- Rust str::trim over the characters of the key-file content. -/
def rustTrim (l : List Char) : List Char :=
  ((l.dropWhile isRustWhitespace).reverse.dropWhile isRustWhitespace).reverse

/-- Branch load_keypair takes after reading the raw key file
(src/keys/store.rs lines 159-163). -/
inductive KeyBranch where
  | encrypted
  | plaintext
deriving DecidableEq

def load_keypair_branch (raw : List Char) : KeyBranch :=
  if "CCLINKEK".data.isPrefixOf raw then .encrypted else .plaintext

/-- The ASCII hex-digit set accepted by u8::from_str_radix with radix 16. -/
def isHexDigitChar (c : Char) : Bool := (hexVal c).isSome

/-- The hex-decoding loop of load_plaintext_keypair: two characters per byte. -/
def decodeHexPairs : List Char → Option (List Nat)
  | [] => some []
  | [_] => none
  | c1 :: c2 :: rest =>
    match hexVal c1, hexVal c2, decodeHexPairs rest with
    | some d1, some d2, some tail => some ((16 * d1 + d2) :: tail)
    | _, _, _ => none

/-- load_plaintext_keypair (src/keys/store.rs lines 171-195): trim the
content, require exactly 64 characters, hex-decode into the 32-byte seed. -/
def load_plaintext_keypair (raw : List Char) : Option (List Nat) :=
  let t := rustTrim raw
  if t.length = 64 then decodeHexPairs t else none

theorem decodeHexPairs_ok :
    ∀ l : List Char, (∀ c ∈ l, isHexDigitChar c = true) → l.length % 2 = 0 →
      ∃ s, decodeHexPairs l = some s ∧ s.length = l.length / 2
  | [], _, _ => ⟨[], rfl, rfl⟩
  | [_], _, heven => by simp at heven
  | c1 :: c2 :: rest, hhex, heven => by
    have h1 : isHexDigitChar c1 = true := hhex c1 (by simp)
    have h2 : isHexDigitChar c2 = true := hhex c2 (by simp)
    obtain ⟨d1, hd1⟩ := Option.isSome_iff_exists.mp h1
    obtain ⟨d2, hd2⟩ := Option.isSome_iff_exists.mp h2
    obtain ⟨tail, htail, hlen⟩ := decodeHexPairs_ok rest
      (fun c hc => hhex c (by simp [hc]))
      (by simp only [List.length_cons] at heven ⊢; omega)
    refine ⟨(16 * d1 + d2) :: tail, ?_, ?_⟩
    · unfold decodeHexPairs
      rw [hd1, hd2, htail]
    · simp only [List.length_cons, hlen]
      omega

/-- C10: for every key-file content whose trimmed form is exactly 64 hex
characters, load_keypair takes the plaintext branch — the CCLINKEK-envelope
branch is unreachable, because a raw file starting with the magic would put
the non-hex character L at position 2 of the trimmed content — and
load_plaintext_keypair decodes it into a 32-byte seed. -/
theorem C10_hex_key_takes_plaintext_branch (raw : List Char)
    (hlen : (rustTrim raw).length = 64)
    (hhex : ∀ c ∈ rustTrim raw, isHexDigitChar c = true) :
    load_keypair_branch raw = .plaintext
    ∧ ∃ seed, load_plaintext_keypair raw = some seed ∧ seed.length = 32 := by
  constructor
  · unfold load_keypair_branch
    rw [if_neg]
    intro hpre
    rw [List.isPrefixOf_iff_prefix] at hpre
    obtain ⟨rest, hraw⟩ := hpre
    have hdrop : raw.dropWhile isRustWhitespace = raw := by
      rw [← hraw]
      rw [show ("CCLINKEK".data ++ rest) = 'C' :: ("CLINKEK".data ++ rest) from rfl]
      rw [List.dropWhile_cons]
      rw [if_neg (by decide)]
    have htrim : rustTrim raw <+: raw := by
      unfold rustTrim
      rw [hdrop]
      exact List.reverse_suffix.mp (by rw [List.reverse_reverse]; exact List.dropWhile_suffix _)
    obtain ⟨t, ht⟩ := htrim
    have hb : 2 < (rustTrim raw).length := by omega
    have hb2 : 2 < raw.length := by
      have hl := congrArg List.length ht
      simp at hl
      omega
    have hL : (rustTrim raw)[2]? = raw[2]? := by
      conv_rhs => rw [← ht]
      rw [List.getElem?_append_left hb]
    have hLval : raw[2]? = some 'L' := by
      rw [← hraw]
      rw [List.getElem?_append_left (show 2 < "CCLINKEK".data.length by decide)]
      rfl
    have hmem : 'L' ∈ rustTrim raw := List.getElem?_mem (hL.trans hLval)
    exact absurd (hhex 'L' hmem) (by decide)
  · obtain ⟨s, hs, hslen⟩ := decodeHexPairs_ok (rustTrim raw) hhex (by rw [hlen])
    refine ⟨s, ?_, ?_⟩
    · show (if (rustTrim raw).length = 64 then decodeHexPairs (rustTrim raw) else none) = some s
      rw [if_pos hlen, hs]
    · rw [hslen, hlen]

theorem C10_witness :
    load_keypair_branch (List.replicate 64 'a') = .plaintext
    ∧ ∃ seed, load_plaintext_keypair (List.replicate 64 'a') = some seed
        ∧ seed.length = 32 :=
  C10_hex_key_takes_plaintext_branch (List.replicate 64 'a') (by decide) (by decide)
